import Mathlib

/-!
Verification development for the Gravitino Python virtual-filesystem client
(`clients/client-python/gravitino/filesystem/gvfs.py`).

Python strings are modelled as `List Char`; every path-manipulating helper of
the source (`str.replace`, `re` matching against `_identifier_pattern`,
`fsspec.utils.infer_storage_options`-based `_strip_protocol`, ...) is given an
executable Lean counterpart operating on character lists.
-/

namespace Gvfs

/-- Python strings, modelled as lists of characters. -/
abbrev Str := List Char

/-- `python: s.replace(old, new, 1)` — replace the first (leftmost) occurrence
of `pat` in `s` by `rep`; if `pat` does not occur, return `s` unchanged.
An empty `pat` matches at the front (CPython semantics). -/
def replace_first (s pat rep : Str) : Str :=
  match s with
  | [] => if pat.isEmpty then rep else []
  | c :: cs =>
    if pat.isPrefixOf (c :: cs) then rep ++ (c :: cs).drop pat.length
    else c :: replace_first cs pat rep

/-- Fuel-indexed worker for `replace_all`; the fuel is an upper bound on the
length of `s`, so the scan always terminates structurally. -/
def replace_all_fuel : Nat → Str → Str → Str → Str
  | 0, s, _, _ => s
  | _ + 1, [], _, _ => []
  | n + 1, c :: cs, pat, rep =>
    if ¬ pat.isEmpty ∧ pat.isPrefixOf (c :: cs) then
      rep ++ replace_all_fuel n ((c :: cs).drop pat.length) pat rep
    else c :: replace_all_fuel n cs pat rep

/-- `python: s.replace(old, new)` — replace every non-overlapping occurrence of
`pat` in `s` by `rep`, scanning left to right (CPython semantics for a
non-empty `pat`). -/
def replace_all (s pat rep : Str) : Str :=
  replace_all_fuel s.length s pat rep

/-- `python: pat in s` — substring occurrence test. -/
def occursB (pat : Str) : Str → Bool
  | [] => pat.isEmpty
  | c :: cs => pat.isPrefixOf (c :: cs) || occursB pat cs

/-- Split a string at every `'/'` (the list of path components, like
`python: s.split("/")`); always returns at least one component. -/
def splitSlash : Str → List Str
  | [] => [[]]
  | c :: cs =>
    if c = '/' then [] :: splitSlash cs
    else
      match splitSlash cs with
      | [] => [[c]]
      | h :: t => (c :: h) :: t

/-- Rejoin components with `'/'` — the inverse of `splitSlash`. -/
def joinSlash : List Str → Str
  | [] => []
  | [x] => x
  | x :: xs => x ++ '/' :: joinSlash xs

/-- The path written `"/g1/g2/.../gk"` followed by an optional trailing slash:
the shape matched by the `(/[^/]+)*` tail of the identifier regex. -/
def restOf : List Str → Bool → Str
  | [], trail => if trail then ['/'] else []
  | g :: gs, trail => '/' :: (g ++ restOf gs trail)

/-- `python: s.rstrip("/")` — drop every trailing `'/'`. -/
def rstrip_slash (s : Str) : Str :=
  (s.reverse.dropWhile (fun c => c = '/')).reverse

/-- The virtual scheme prefix `"gvfs://fileset"` (`_gvfs_prefix_str` in the source). -/
def gvfs_prefix_str : Str :=
  ['g', 'v', 'f', 's', ':', '/', '/', 'f', 'i', 'l', 'e', 's', 'e', 't']

/-- The HDFS scheme prefix `"hdfs://"` (`StorageType.HDFS.value` in the source). -/
def hdfs_prefix_str : Str := ['h', 'd', 'f', 's', ':', '/', '/']

/-- A character that can be part of a URL scheme name (anything up to the
first `':'` or `'/'`). -/
def schemeChar (c : Char) : Bool := ¬ (c = ':' ∨ c = '/')

/-- A character that is not a path separator. -/
def notSlash (c : Char) : Bool := ¬ c = '/'

/-- The final `"//"` special case of `_strip_protocol`: a path beginning with
a double slash loses one leading slash. -/
def stripSlashes (path : Str) : Str :=
  if path.take 2 = ['/', '/'] then path.drop 1 else path

/-- Model of `GravitinoVirtualFileSystem._strip_protocol`, which runs
`fsspec.utils.infer_storage_options(path)["path"]` and then drops one leading
slash from a `"//"`-prefixed result.  For a URL `scheme://netloc/path` the
inferred path is `"/path"` (everything from the first slash after the
authority); a string without a leading `scheme://` is returned unchanged. -/
def strip_protocol (s : Str) : Str :=
  if ¬ (s.takeWhile schemeChar).isEmpty ∧
      (s.drop (s.takeWhile schemeChar).length).take 3 = [':', '/', '/'] then
    stripSlashes ((s.drop ((s.takeWhile schemeChar).length + 3)).dropWhile notSlash)
  else s

/-- The `pyarrow.fs.FileType` values the source dispatches on. -/
inductive FileType where
  | File
  | Directory
  | NotFound
  | Other
deriving DecidableEq, Repr

/-- A `pyarrow.fs.FileInfo` as consumed by the source: backend path (already
scheme-less, as pyarrow reports it), file type, size and mtime. -/
structure FileInfo where
  path : Str
  ftype : FileType
  size : Int
  mtime : Int
deriving DecidableEq, Repr

/-- The result dictionary built by `_convert_file_info_path_prefix_sub`. -/
structure FileInfoDict where
  name : Str
  size : Int
  kind : String
  mtime : Int
deriving DecidableEq, Repr

/-- The slice of the catalog's fileset metadata the engine reads: only
`storage_location()` is consulted. -/
structure Fileset where
  storage_location : Str
deriving DecidableEq, Repr

/-- Modelled from the spec: `CatalogIdentifier — immutable tuple
{metalake, catalog, schema, filesetName}` (the `NameIdentifier` class itself is
not among the provided sources; the spec says it uniquely addresses one
fileset, so equality is componentwise). -/
structure NameIdentifier where
  metalake : Str
  catalog : Str
  schema : Str
  name : Str
deriving DecidableEq, Repr

/-- The Python exception kinds the engine raises or dispatches on. -/
inductive PyError where
  | fileNotFound (path : Str)
  | valueError (msg : String)
  | exceptionErr (msg : String)
  | backendErr (msg : String)
deriving DecidableEq, Repr

/-- Backend (pyarrow `FileSystem`) operations the read-side facade consumes.
`get_file_info` models `fs.get_file_info([p])` (reporting a missing target as
`FileType.NotFound`, raising only for transport failures, whose payload is an
opaque message); `list_selector` models `fs.get_file_info(FileSelector(p))`. -/
structure Backend where
  get_file_info : Str → Except String FileInfo
  list_selector : Str → Except String (List FileInfo)

/-- Catalog / backend interactions a facade call performs, in order.  Used to
state that an operation fails before any such interaction happens. -/
inductive Op where
  | catalogLoad (i : NameIdentifier)
  | probeInfo (p : Str)
  | listSel (p : Str)
  | openIn (p : Str)
  | openOut (p : Str)
  | moveOp (src dst : Str)
  | deleteOp (p : Str)
deriving DecidableEq, Repr

/-- Drop the component produced by the one optional trailing slash of the
identifier pattern, when present. -/
def pattern_trim (segs : List Str) : List Str :=
  if ¬ segs.isEmpty ∧ segs.getLast? = some [] then segs.dropLast else segs

/-- Check the component list after the leading slash: after trimming the one
optional trailing-slash component, at least three components must remain and
all must be non-empty (each matches `[^/]+`). -/
def pattern_segs (segs : List Str) : Option (Str × Str × Str) :=
  match pattern_trim segs with
  | c :: s :: f :: rest =>
    if (c :: s :: f :: rest).all (fun g => ¬ g.isEmpty) then some (c, s, f) else none
  | _ => none

/-- The anchored part of the pattern after the optional scheme prefix:
`^/([^/]+)/([^/]+)/([^/]+)(?>/[^/]+)*/?$` — the component list must start with
an empty component (leading slash) followed by the segment components. -/
def pattern_core (body : Str) : Option (Str × Str × Str) :=
  match splitSlash body with
  | [] :: segs => pattern_segs segs
  | _ => none

/-- Model of matching `_identifier_pattern =
`^(?:gvfs://fileset)?/([^/]+)/([^/]+)/([^/]+)(?>/[^/]+)*/?$`` against a path:
the optional scheme prefix is consumed when present (the anchored `^/` makes
backtracking over it impossible), then the remainder must consist of at least
three non-empty slash-free segments, the further segments being the relative
sub-path, with one optional trailing slash.  Returns the three captured
groups. -/
def identifier_pattern_match (p : Str) : Option (Str × Str × Str) :=
  pattern_core (if gvfs_prefix_str.isPrefixOf p then p.drop gvfs_prefix_str.length else p)

/-- Model of `GravitinoVirtualFileSystem._extract_identifier`: reject a
null/empty path, match the identifier pattern, and build the fileset
`NameIdentifier` from the metalake and the three captured groups. -/
def extract_identifier (metalake p : Str) : Except PyError NameIdentifier :=
  if p.isEmpty then
    .error (.valueError "path which need be extracted cannot be null or empty.")
  else
    match identifier_pattern_match p with
    | some (c, s, f) => .ok ⟨metalake, c, s, f⟩
    | none => .error (.valueError "path doesn't contains valid identifier.")

/-- Model of `GravitinoVirtualFileSystem._get_virtual_location`: format
`"{prefix}/{catalog}/{schema}/{name}"`, with the scheme prefix only when
`with_scheme` is true. -/
def get_virtual_location (i : NameIdentifier) (with_scheme : Bool) : Str :=
  (if with_scheme then gvfs_prefix_str else [])
    ++ '/' :: (i.catalog ++ '/' :: (i.schema ++ '/' :: i.name))

/-- Model of `GravitinoVirtualFileSystem._check_mount_single_file`: probe the
backend's file info for the stripped storage location; the fileset is a
single-file mount exactly when the probed type is `File`.  A probe failure is
wrapped in a generic `Exception`. -/
def check_mount_single_file (b : Backend) (fileset : Fileset) : Except PyError Bool :=
  match b.get_file_info (strip_protocol fileset.storage_location) with
  | .error _ =>
    .error (.exceptionErr "Cannot check whether the fileset mounts a single file")
  | .ok info => .ok (info.ftype = FileType.File)

/-- Core of `GravitinoVirtualFileSystem._get_actual_path_by_ident` once the
single-file-mount flag is known: for a single-file mount the virtual path must
equal the virtual location exactly (else a generic `Exception` is raised,
re-wrapped by the enclosing handler), and the storage location itself is the
actual path; otherwise the virtual-location prefix is substituted by the
storage location, first occurrence only (`str.replace(..., 1)`). -/
def translate_virtual (i : NameIdentifier) (fileset : Fileset) (single_file : Bool)
    (virtual_path : Str) : Except PyError Str :=
  let with_scheme := gvfs_prefix_str.isPrefixOf virtual_path
  let virtual_location := get_virtual_location i with_scheme
  if single_file then
    if ¬ virtual_path = virtual_location then
      .error (.exceptionErr "Cannot resolve path to actual storage path")
    else .ok fileset.storage_location
  else .ok (replace_first virtual_path virtual_location fileset.storage_location)

/-- Model of `GravitinoVirtualFileSystem._get_actual_path_by_ident`: run the
single-file probe, then `translate_virtual`; any exception raised inside the
`try` block is re-wrapped as `Exception("Cannot resolve path ...")`. -/
def get_actual_path_by_ident (b : Backend) (i : NameIdentifier) (fileset : Fileset)
    (virtual_path : Str) : Except PyError Str :=
  match check_mount_single_file b fileset with
  | .error _ => .error (.exceptionErr "Cannot resolve path to actual storage path")
  | .ok single_file => translate_virtual i fileset single_file virtual_path

/-- Model of `GravitinoVirtualFileSystem._convert_file_info_path_prefix_sub`:
reject a backend path that does not start with the stripped storage-location
prefix; report a `NotFound` entry as `FileNotFoundError`; otherwise build the
result dict, substituting every occurrence of the actual prefix by the
stripped virtual prefix and prepending the scheme prefix to the name. -/
def convert_file_info_path_prefix_sub (info : FileInfo) (storage_location virtual_location : Str) :
    Except PyError FileInfoDict :=
  let actual_prefix := strip_protocol storage_location
  let virtual_prefix := strip_protocol virtual_location
  if ¬ actual_prefix.isPrefixOf info.path then
    .error (.valueError "Path does not start with valid prefix.")
  else
    match info.ftype with
    | .Directory =>
      .ok ⟨gvfs_prefix_str ++ replace_all info.path actual_prefix virtual_prefix,
        info.size, "directory", info.mtime⟩
    | .File =>
      .ok ⟨gvfs_prefix_str ++ replace_all info.path actual_prefix virtual_prefix,
        info.size, "file", info.mtime⟩
    | .NotFound => .error (.fileNotFound info.path)
    | .Other =>
      .ok ⟨gvfs_prefix_str ++ replace_all info.path actual_prefix virtual_prefix,
        info.size, "other", info.mtime⟩

/-- Per-call resolution as performed by `_get_fileset_context`: extract the
identifier, obtain the fileset metadata from the catalog (`catalog` stands for
`_load_fileset_from_server`; the metadata cache, modelled separately by
`cache_resolve_step`, only decides whether this catalog call is skipped — it
never changes the returned context), require an HDFS storage location, and
compute the actual path.  Also returns the catalog/backend interactions
performed, in order. -/
def resolve_context (b : Backend) (catalog : NameIdentifier → Except String Fileset)
    (metalake virtual_path : Str) :
    Except PyError (NameIdentifier × Fileset × Str) × List Op :=
  match extract_identifier metalake virtual_path with
  | .error e => (.error e, [])
  | .ok i =>
    match catalog i with
    | .error m => (.error (.backendErr m), [.catalogLoad i])
    | .ok fileset =>
      if ¬ hdfs_prefix_str.isPrefixOf fileset.storage_location then
        (.error (.valueError "Storage under the fileset doesn't support now."),
          [.catalogLoad i])
      else
        match get_actual_path_by_ident b i fileset virtual_path with
        | .error e =>
          (.error e, [.catalogLoad i, .probeInfo (strip_protocol fileset.storage_location)])
        | .ok actual =>
          (.ok (i, fileset, actual),
            [.catalogLoad i, .probeInfo (strip_protocol fileset.storage_location)])

/-- Model of `GravitinoVirtualFileSystem.ls`: resolve the path, require an
HDFS actual path, list the actual directory through a `FileSelector`, and
convert every returned entry back to virtual form. -/
def ls (b : Backend) (catalog : NameIdentifier → Except String Fileset)
    (metalake virtual_path : Str) : Except PyError (List FileInfoDict) × List Op :=
  match resolve_context b catalog metalake virtual_path with
  | (.error e, ops) => (.error e, ops)
  | (.ok (i, fileset, actual), ops) =>
    if ¬ hdfs_prefix_str.isPrefixOf actual then
      (.error (.valueError "Storage under the fileset doesn't support now."), ops)
    else
      match b.list_selector (strip_protocol actual) with
      | .error m => (.error (.backendErr m), ops ++ [.listSel (strip_protocol actual)])
      | .ok infos =>
        (infos.mapM
          (fun fi =>
            convert_file_info_path_prefix_sub fi fileset.storage_location
              (get_virtual_location i true)),
          ops ++ [.listSel (strip_protocol actual)])

/-- Model of `GravitinoVirtualFileSystem.info`: resolve the path, require an
HDFS actual path, fetch the single file info and convert it to virtual form. -/
def info (b : Backend) (catalog : NameIdentifier → Except String Fileset)
    (metalake virtual_path : Str) : Except PyError FileInfoDict × List Op :=
  match resolve_context b catalog metalake virtual_path with
  | (.error e, ops) => (.error e, ops)
  | (.ok (i, fileset, actual), ops) =>
    if ¬ hdfs_prefix_str.isPrefixOf actual then
      (.error (.valueError "Storage under the fileset doesn't support now."), ops)
    else
      match b.get_file_info (strip_protocol actual) with
      | .error m => (.error (.backendErr m), ops ++ [.probeInfo (strip_protocol actual)])
      | .ok fi =>
        (convert_file_info_path_prefix_sub fi fileset.storage_location
            (get_virtual_location i true),
          ops ++ [.probeInfo (strip_protocol actual)])

/-- Model of `GravitinoVirtualFileSystem.exists`: call `info`, convert a
`FileNotFoundError` to `False`, a success to `True`, and re-raise every other
exception unchanged. -/
def existsOp (b : Backend) (catalog : NameIdentifier → Except String Fileset)
    (metalake virtual_path : Str) : Except PyError Bool :=
  match (info b catalog metalake virtual_path).1 with
  | .error (.fileNotFound _) => .ok false
  | .error e => .error e
  | .ok _ => .ok true

/-- A backend file-namespace snapshot: the set of paths that currently exist,
as a list of names.  Contents are irrelevant to the properties modelled. -/
abbrev FsState := List Str

/-- Create a path (pyarrow `open_output_stream` creates/truncates the target). -/
def add_name (st : FsState) (p : Str) : FsState :=
  if p ∈ st then st else st ++ [p]

/-- Remove a path. -/
def remove_name (st : FsState) (p : Str) : FsState :=
  st.filter (fun q => ¬ q = p)

/-- pyarrow `fs.delete_file(p)`: raises `FileNotFoundError` when `p` is
absent, otherwise removes it. -/
def delete_file_op (st : FsState) (p : Str) : Option PyError × FsState :=
  if p ∈ st then (none, remove_name st p) else (some (.fileNotFound p), st)

/-- The failure points inside `cp_file`'s `try` block that the atomicity claim
quantifies over: creation of the temporary output stream, the streamed copy,
and the final rename. -/
inductive CopyFailure where
  | openOutFail
  | copyFail
  | moveFail
deriving DecidableEq, Repr

/-- The `".tmp."` infix of the temporary sibling name. -/
def tmp_mid : Str := ['.', 't', 'm', 'p', '.']

/-- The temporary sibling name `f"{dst_actual_path}.tmp.{secrets.token_hex(6)}"`
(`tok` stands for the random token). -/
def tmp_name (dstA tok : Str) : Str := dstA ++ tmp_mid ++ tok

/-- The `except` handler of `cp_file`: best-effort delete of the temporary
name, suppressing only `FileNotFoundError`; a different cleanup error replaces
the original one (it escapes the `with suppress(...)` block), otherwise the
original error `orig` is re-raised. -/
def cp_cleanup (st : FsState) (tmp : Str) (orig : PyError) : PyError × FsState :=
  match delete_file_op st tmp with
  | (some (.fileNotFound _), st') => (orig, st')
  | (some e, st') => (e, st')
  | (none, st') => (orig, st')

/-- The write phase of `GravitinoVirtualFileSystem.cp_file` (source lines
150–162): open the source for reading, stream it into the temporary sibling
name, rename the temporary name onto the destination; on a failure inside the
`try` block, run the cleanup handler and re-raise.  `fail` injects a failure
at the chosen point (`none` = no failure).  Returns the outcome, the final
namespace, and the backend calls made. -/
def cp_file_write (st : FsState) (srcA dstA tok : Str) (fail : Option CopyFailure) :
    Except PyError Unit × FsState × List Op :=
  if ¬ srcA ∈ st then (.error (.fileNotFound srcA), st, [.openIn srcA])
  else
    let tmp := tmp_name dstA tok
    match fail with
    | some .openOutFail =>
      let (e, st') := cp_cleanup st tmp (.backendErr "open_output_stream failed")
      (.error e, st', [.openIn srcA, .openOut tmp, .deleteOp tmp])
    | some .copyFail =>
      let st1 := add_name st tmp
      let (e, st') := cp_cleanup st1 tmp (.backendErr "stream copy failed")
      (.error e, st', [.openIn srcA, .openOut tmp, .deleteOp tmp])
    | some .moveFail =>
      let st1 := add_name st tmp
      let (e, st') := cp_cleanup st1 tmp (.backendErr "move failed")
      (.error e, st', [.openIn srcA, .openOut tmp, .moveOp tmp dstA, .deleteOp tmp])
    | none =>
      let st1 := add_name st tmp
      (.ok (), add_name (remove_name st1 tmp) dstA,
        [.openIn srcA, .openOut tmp, .moveOp tmp dstA])

/-- Model of `GravitinoVirtualFileSystem.cp_file`: extract both identifiers,
reject when they differ (before any resolution or backend call), resolve the
source, reject a single-file mount, resolve the destination, strip and
right-trim both actual paths, and run the write phase. -/
def cp_file (b : Backend) (catalog : NameIdentifier → Except String Fileset)
    (metalake src dst : Str) (st : FsState) (tok : Str) (fail : Option CopyFailure) :
    Except PyError Unit × FsState × List Op :=
  match extract_identifier metalake src with
  | .error e => (.error e, st, [])
  | .ok i1 =>
    match extract_identifier metalake dst with
    | .error e => (.error e, st, [])
    | .ok i2 =>
      if ¬ i1 = i2 then
        (.error (.valueError
          "Destination file path identifier should be same with src file path identifier."),
          st, [])
      else
        match resolve_context b catalog metalake src with
        | (.error e, ops) => (.error e, st, ops)
        | (.ok (_, fs1, a1), ops) =>
          if ¬ hdfs_prefix_str.isPrefixOf a1 then
            (.error (.valueError "Storage under the fileset doesn't support now."), st, ops)
          else
            let probe := Op.probeInfo (strip_protocol fs1.storage_location)
            match check_mount_single_file b fs1 with
            | .error e => (.error e, st, ops ++ [probe])
            | .ok true =>
              (.error (.valueError
                "Cannot cp file of the fileset which only mounts to a single file."),
                st, ops ++ [probe])
            | .ok false =>
              match resolve_context b catalog metalake dst with
              | (.error e, ops2) => (.error e, st, ops ++ [probe] ++ ops2)
              | (.ok (_, _, a2), ops2) =>
                let srcA := rstrip_slash (strip_protocol a1)
                let dstA := rstrip_slash (strip_protocol a2)
                match cp_file_write st srcA dstA tok fail with
                | (r, st', ops3) => (r, st', ops ++ [probe] ++ ops2 ++ ops3)

/-- Model of `GravitinoVirtualFileSystem.mv`: extract both identifiers, reject
when they differ (before any resolution or backend call), resolve the source,
reject a single-file mount, resolve the destination, and rename. -/
def mv (b : Backend) (catalog : NameIdentifier → Except String Fileset)
    (metalake src dst : Str) (st : FsState) :
    Except PyError Unit × FsState × List Op :=
  match extract_identifier metalake src with
  | .error e => (.error e, st, [])
  | .ok i1 =>
    match extract_identifier metalake dst with
    | .error e => (.error e, st, [])
    | .ok i2 =>
      if ¬ i1 = i2 then
        (.error (.valueError
          "Destination file path identifier should be same with src file path identifier."),
          st, [])
      else
        match resolve_context b catalog metalake src with
        | (.error e, ops) => (.error e, st, ops)
        | (.ok (_, fs1, a1), ops) =>
          if ¬ hdfs_prefix_str.isPrefixOf a1 then
            (.error (.valueError "Storage under the fileset doesn't support now."), st, ops)
          else
            let probe := Op.probeInfo (strip_protocol fs1.storage_location)
            match check_mount_single_file b fs1 with
            | .error e => (.error e, st, ops ++ [probe])
            | .ok true =>
              (.error (.valueError
                "Cannot cp file of the fileset which only mounts to a single file."),
                st, ops ++ [probe])
            | .ok false =>
              match resolve_context b catalog metalake dst with
              | (.error e, ops2) => (.error e, st, ops ++ [probe] ++ ops2)
              | (.ok (_, _, a2), ops2) =>
                let srcA := rstrip_slash (strip_protocol a1)
                let dstA := rstrip_slash (strip_protocol a2)
                let mops := ops ++ [probe] ++ ops2 ++ [Op.moveOp srcA dstA]
                if ¬ srcA ∈ st then (.error (.backendErr "move source not found"), st, mops)
                else (.ok (), add_name (remove_name st srcA) dstA, mops)

/-- The fileset metadata cache of `GravitinoVirtualFileSystem`: a plain
insertion-ordered dictionary keyed by `NameIdentifier`
(`self.cache: Dict[NameIdentifier, Tuple] = {}` in `__init__`). -/
abbrev Cache := List (NameIdentifier × Fileset)

/-- `python: self.cache.get(identifier)`. -/
def cache_get : Cache → NameIdentifier → Option Fileset
  | [], _ => none
  | (k, v) :: t, i => if k = i then some v else cache_get t i

/-- `python: self.cache[identifier] = value` — overwrite in place, or append a
new key (Python dicts preserve insertion order). -/
def cache_put (c : Cache) (i : NameIdentifier) (f : Fileset) : Cache :=
  if (cache_get c i).isSome then
    c.map (fun kv => if kv.1 = i then (i, f) else kv)
  else c ++ [(i, f)]

/-- The cache discipline of `_get_fileset_context` (source lines 348–394), per
sequential call: look the identifier up; on a hit return the cached fileset
without touching the catalog; on a miss load from the server
(`_load_fileset_from_server`), insert, and return.  The third component counts
the catalog loads performed by the call (0 or 1).  The per-call path
translation is orthogonal to the cache and is modelled by
`get_actual_path_by_ident`. -/
def cache_resolve_step (server : NameIdentifier → Fileset) (c : Cache)
    (i : NameIdentifier) : Cache × Fileset × Nat :=
  match cache_get c i with
  | some f => (c, f, 0)
  | none => (cache_put c i (server i), server i, 1)

/-!
Concurrency model for the slow path of `_get_fileset_context`: `n` caller
threads resolve the same uncached identifier.  Each thread runs the source's
control flow — a read-locked lookup, then (on miss) acquisition of the
exclusive writer lock of the `rwlock.RWLockFair`, a double-checked re-read,
and only if the entry is still absent the catalog load + insert.  The lock is
modelled by a `writer` field: the read-locked lookup and the writer
acquisition both require `writer = none` (readers are excluded while a writer
holds the lock), and the critical-section steps require holding it.  All
interleavings of these atomic steps are covered by the step relation.
-/

/-- Program counter of one resolving thread.  `entry`: before the read-locked
lookup; `wlockWait`: lookup missed, waiting on the writer lock; `held0`:
writer lock acquired, about to re-check the cache; `loadPhase`: re-check
missed, catalog load in flight; `finished v`: returned with entry `v`. -/
inductive SFPc (F : Type) where
  | entry
  | wlockWait
  | held0
  | loadPhase
  | finished (v : F)
deriving DecidableEq

/-- Shared state of the `n`-thread single-flight system: the cache slot for
the contended identifier, the number of catalog loads performed so far, the
current writer-lock holder, and every thread's program counter. -/
structure SFState (n : Nat) (F : Type) where
  cache : Option F
  loads : Nat
  writer : Option (Fin n)
  pcs : Fin n → SFPc F

/-- Initial state: empty cache slot, no loads, lock free, all threads at
`entry`. -/
def sfInit (n : Nat) (F : Type) : SFState n F :=
  ⟨none, 0, none, fun _ => .entry⟩

/-- One atomic step of one thread, `srv` being the fileset the catalog returns
for the contended identifier. -/
inductive SFStep {n : Nat} {F : Type} (srv : F) : SFState n F → SFState n F → Prop where
  | readHit (s : SFState n F) (t : Fin n) (v : F)
      (hpc : s.pcs t = .entry) (hw : s.writer = none) (hc : s.cache = some v) :
      SFStep srv s { s with pcs := Function.update s.pcs t (.finished v) }
  | readMiss (s : SFState n F) (t : Fin n)
      (hpc : s.pcs t = .entry) (hw : s.writer = none) (hc : s.cache = none) :
      SFStep srv s { s with pcs := Function.update s.pcs t .wlockWait }
  | acquire (s : SFState n F) (t : Fin n)
      (hpc : s.pcs t = .wlockWait) (hw : s.writer = none) :
      SFStep srv s { s with writer := some t, pcs := Function.update s.pcs t .held0 }
  | recheckHit (s : SFState n F) (t : Fin n) (v : F)
      (hpc : s.pcs t = .held0) (hw : s.writer = some t) (hc : s.cache = some v) :
      SFStep srv s
        { s with writer := none, pcs := Function.update s.pcs t (.finished v) }
  | recheckMiss (s : SFState n F) (t : Fin n)
      (hpc : s.pcs t = .held0) (hw : s.writer = some t) (hc : s.cache = none) :
      SFStep srv s { s with pcs := Function.update s.pcs t .loadPhase }
  | load (s : SFState n F) (t : Fin n)
      (hpc : s.pcs t = .loadPhase) (hw : s.writer = some t) :
      SFStep srv s
        { cache := some srv, loads := s.loads + 1, writer := none,
          pcs := Function.update s.pcs t (.finished srv) }

/-- Reachability from the initial state through any interleaving. -/
def SFReach {n : Nat} {F : Type} (srv : F) (s : SFState n F) : Prop :=
  Relation.ReflTransGen (SFStep srv) (sfInit n F) s

theorem isPrefixOf_append_self (l t : Str) : l.isPrefixOf (l ++ t) = true := by
  induction l with
  | nil => simp [List.isPrefixOf]
  | cons a as ih => simp [List.isPrefixOf, ih]

theorem isPrefixOf_iff_exists {l s : Str} : l.isPrefixOf s = true ↔ ∃ t, s = l ++ t := by
  constructor
  · intro h
    induction l generalizing s with
    | nil => exact ⟨s, rfl⟩
    | cons a as ih =>
      cases s with
      | nil => exact absurd h (by simp only [List.isPrefixOf]; simp)
      | cons b bs =>
        simp only [List.isPrefixOf, Bool.and_eq_true, beq_iff_eq] at h
        obtain ⟨t, ht⟩ := ih h.2
        exact ⟨t, by simp [← h.1, ht]⟩
  · rintro ⟨t, rfl⟩
    exact isPrefixOf_append_self l t

theorem gvfs_not_prefixOf_slash (q : Str) : gvfs_prefix_str.isPrefixOf ('/' :: q) = false := by
  simp [gvfs_prefix_str, List.isPrefixOf]

theorem replace_first_at_head {pat : Str} (t rep : Str) (hne : pat ≠ []) :
    replace_first (pat ++ t) pat rep = rep ++ t := by
  cases pat with
  | nil => exact absurd rfl hne
  | cons p ps =>
    show replace_first (p :: (ps ++ t)) (p :: ps) rep = rep ++ t
    rw [replace_first]
    rw [show p :: (ps ++ t) = (p :: ps) ++ t from rfl]
    rw [isPrefixOf_append_self]
    simp [List.drop_left]

theorem occursB_cons_false {pat : Str} {c : Char} {cs : Str}
    (h : occursB pat (c :: cs) = false) :
    pat.isPrefixOf (c :: cs) = false ∧ occursB pat cs = false := by
  rw [occursB] at h
  exact ⟨by cases hp : pat.isPrefixOf (c :: cs) <;> simp_all,
    by cases ho : occursB pat cs <;> simp_all⟩

theorem replace_all_fuel_no_occ {pat rep : Str} :
    ∀ (n : Nat) (s : Str), s.length ≤ n → occursB pat s = false →
      replace_all_fuel n s pat rep = s := by
  intro n
  induction n with
  | zero => intro s _ _; rw [replace_all_fuel]
  | succ m ih =>
    intro s hlen hocc
    cases s with
    | nil => rw [replace_all_fuel]
    | cons c cs =>
      obtain ⟨h1, h2⟩ := occursB_cons_false hocc
      rw [replace_all_fuel, if_neg (by simp [h1])]
      have : cs.length ≤ m := by simpa using hlen
      rw [ih cs this h2]

theorem replace_all_no_occ {pat rep : Str} (s : Str) (hocc : occursB pat s = false) :
    replace_all s pat rep = s :=
  replace_all_fuel_no_occ s.length s le_rfl hocc

theorem replace_all_of_prefix_no_reocc {pat : Str} (t rep : Str) (hne : pat ≠ [])
    (hocc : occursB pat t = false) :
    replace_all (pat ++ t) pat rep = rep ++ t := by
  cases pat with
  | nil => exact absurd rfl hne
  | cons p ps =>
    show replace_all_fuel ((p :: ps) ++ t).length (p :: (ps ++ t)) (p :: ps) rep = rep ++ t
    have hlen : ((p :: ps) ++ t).length = (ps ++ t).length + 1 := by simp
    rw [hlen, replace_all_fuel,
      if_pos (by exact ⟨by simp, by
        rw [show p :: (ps ++ t) = (p :: ps) ++ t from rfl]
        simp [isPrefixOf_append_self]⟩)]
    rw [show p :: (ps ++ t) = (p :: ps) ++ t from rfl, List.drop_left]
    rw [replace_all_fuel_no_occ (ps ++ t).length t (by simp) hocc]

theorem dropWhile_slash_append {g : Str} (q : Str) (hg : ∀ x ∈ g, ¬ x = '/') :
    List.dropWhile notSlash (g ++ '/' :: q) = '/' :: q := by
  induction g with
  | nil => simp [List.dropWhile, notSlash]
  | cons a as ih =>
    have ha : ¬ a = '/' := hg a (by simp)
    have hd : notSlash a = true := by simp [notSlash, ha]
    simp only [List.cons_append, List.dropWhile, hd]
    exact ih (fun x hx => hg x (by simp [hx]))

theorem stripSlashes_of_head {q : Str} (hq : q.head? ≠ some '/') :
    stripSlashes ('/' :: q) = '/' :: q := by
  rw [stripSlashes, if_neg]
  cases q with
  | nil => simp [List.take]
  | cons c cs =>
    have hc : ¬ c = '/' := by simpa using hq
    simp [List.take, hc]

theorem strip_protocol_slash (q : Str) : strip_protocol ('/' :: q) = '/' :: q := by
  rw [strip_protocol, if_neg]
  intro h
  exact h.1 (by rw [show List.takeWhile schemeChar ('/' :: q) = [] from rfl]; rfl)

theorem strip_protocol_hdfs {host : Str} (q : Str) (hh : ∀ x ∈ host, ¬ x = '/')
    (hq : q.head? ≠ some '/') :
    strip_protocol (hdfs_prefix_str ++ (host ++ '/' :: q)) = '/' :: q := by
  have htk : List.takeWhile schemeChar (hdfs_prefix_str ++ (host ++ '/' :: q))
      = ['h', 'd', 'f', 's'] := rfl
  rw [strip_protocol, if_pos ⟨by rw [htk]; simp, rfl⟩]
  rw [show (hdfs_prefix_str ++ (host ++ '/' :: q)).drop
      ((List.takeWhile schemeChar (hdfs_prefix_str ++ (host ++ '/' :: q))).length + 3)
      = host ++ '/' :: q from by rw [htk]; rfl]
  rw [dropWhile_slash_append q hh]
  exact stripSlashes_of_head hq

theorem strip_protocol_gvfs (q : Str) (hq : q.head? ≠ some '/') :
    strip_protocol (gvfs_prefix_str ++ '/' :: q) = '/' :: q := by
  have htk : List.takeWhile schemeChar (gvfs_prefix_str ++ '/' :: q)
      = ['g', 'v', 'f', 's'] := rfl
  rw [strip_protocol, if_pos ⟨by rw [htk]; simp, rfl⟩]
  rw [show (gvfs_prefix_str ++ '/' :: q).drop
      ((List.takeWhile schemeChar (gvfs_prefix_str ++ '/' :: q)).length + 3)
      = ('f' :: 'i' :: 'l' :: 'e' :: 's' :: 'e' :: 't' :: []) ++ '/' :: q from by rw [htk]; rfl]
  rw [dropWhile_slash_append q (by decide)]
  exact stripSlashes_of_head hq

theorem splitSlash_ne_nil (s : Str) : splitSlash s ≠ [] := by
  cases s with
  | nil => simp [splitSlash]
  | cons c cs =>
    rw [splitSlash]
    by_cases h : c = '/'
    · simp [h]
    · rw [if_neg h]
      cases splitSlash cs <;> simp

theorem splitSlash_slash (r : Str) : splitSlash ('/' :: r) = [] :: splitSlash r := by
  simp [splitSlash]

theorem splitSlash_append_seg {g : Str} (hg : ∀ x ∈ g, ¬ x = '/') {r : Str} {h : Str}
    {t : List Str} (hr : splitSlash r = h :: t) : splitSlash (g ++ r) = (g ++ h) :: t := by
  induction g with
  | nil => simpa using hr
  | cons a as ih =>
    have ha : ¬ a = '/' := hg a (by simp)
    have ih2 := ih (fun x hx => hg x (by simp [hx]))
    rw [List.cons_append, splitSlash, if_neg ha]
    rw [ih2]
    simp

theorem splitSlash_restOf (gs : List Str) (trail : Bool)
    (h : ∀ g ∈ gs, ∀ x ∈ g, ¬ x = '/') :
    splitSlash (restOf gs trail) = [] :: (gs ++ if trail then [[]] else []) := by
  induction gs with
  | nil =>
    cases trail with
    | false => simp [restOf, splitSlash]
    | true => simp [restOf, splitSlash]
  | cons g gs ih =>
    have ih2 := ih (fun x hx => h x (by simp [hx]))
    rw [restOf, splitSlash_slash,
      splitSlash_append_seg (h g (by simp)) ih2]
    simp

theorem joinSlash_cons (x : Str) (L : List Str) :
    joinSlash (x :: L) = x ++ joinSlash ([] :: L) := by
  cases L with
  | nil => simp [joinSlash]
  | cons y ys => simp [joinSlash]

theorem joinSlash_splitSlash (s : Str) : joinSlash (splitSlash s) = s := by
  induction s with
  | nil => simp [splitSlash, joinSlash]
  | cons c cs ih =>
    obtain ⟨x, xs, hsp⟩ : ∃ x xs, splitSlash cs = x :: xs := by
      cases h : splitSlash cs with
      | nil => exact absurd h (splitSlash_ne_nil cs)
      | cons x xs => exact ⟨x, xs, rfl⟩
    rw [hsp] at ih
    rw [splitSlash]
    by_cases h : c = '/'
    · rw [if_pos h, hsp]
      rw [show joinSlash ([] :: x :: xs) = '/' :: joinSlash (x :: xs) from by
        simp [joinSlash]]
      rw [ih, h]
    · rw [if_neg h, hsp]
      rw [joinSlash_cons]
      rw [joinSlash_cons x xs] at ih
      simp only [List.cons_append, List.nil_append]
      exact congrArg (c :: ·) ih

theorem joinSlash_shape (gs : List Str) (trail : Bool) :
    joinSlash ([] :: (gs ++ if trail then [[]] else [])) = restOf gs trail := by
  induction gs with
  | nil =>
    cases trail with
    | false => simp [joinSlash, restOf]
    | true => simp [joinSlash, restOf]
  | cons g gs ih =>
    have h1 : joinSlash ([] :: ((g :: gs) ++ if trail then [[]] else []))
        = '/' :: joinSlash ((g :: gs) ++ if trail then [[]] else []) := by
      cases trail <;> simp [joinSlash]
    rw [h1, List.cons_append, joinSlash_cons, ih, restOf]

theorem splitSlash_mem_noSlash {s : Str} {g : Str} (hg : g ∈ splitSlash s) :
    ∀ x ∈ g, ¬ x = '/' := by
  induction s generalizing g with
  | nil =>
    simp [splitSlash] at hg
    simp [hg]
  | cons c cs ih =>
    rw [splitSlash] at hg
    by_cases h : c = '/'
    · rw [if_pos h] at hg
      rcases List.mem_cons.mp hg with h1 | h1
      · simp [h1]
      · exact ih h1
    · rw [if_neg h] at hg
      have hne := splitSlash_ne_nil cs
      cases hsp : splitSlash cs with
      | nil => exact absurd hsp hne
      | cons x xs =>
        rw [hsp] at hg
        rcases List.mem_cons.mp hg with h1 | h1
        · subst h1
          intro y hy
          rcases List.mem_cons.mp hy with h2 | h2
          · simpa [h2] using h
          · exact ih (by rw [hsp]; exact List.mem_cons_self x xs) y h2
        · exact ih (by rw [hsp]; exact List.mem_cons_of_mem x h1)

theorem getLast?_mem {α : Type} : ∀ {l : List α} {a : α}, l.getLast? = some a → a ∈ l
  | [], a, h => by simp at h
  | [x], a, h => by simp at h; simp [h]
  | x :: y :: ys, a, h => by
    rw [List.getLast?_cons_cons] at h
    exact List.mem_cons_of_mem x (getLast?_mem h)

theorem dropLast_append_getLast? {α : Type} :
    ∀ {l : List α} {a : α}, l.getLast? = some a → l.dropLast ++ [a] = l
  | [], a, h => by simp at h
  | [x], a, h => by simp at h; simp [h]
  | x :: y :: ys, a, h => by
    rw [List.getLast?_cons_cons] at h
    have := dropLast_append_getLast? h
    simpa using this

/-- Declarative shape of a path body accepted by the anchored pattern after
the optional scheme prefix: a leading slash, then the three captured segments,
then any further sub-path segments, all non-empty and slash-free, with an
optional trailing slash. -/
def BodyShape (body c s f : Str) : Prop :=
  ∃ (extra : List Str) (trail : Bool),
    body = restOf (c :: s :: f :: extra) trail ∧
    ∀ g ∈ c :: s :: f :: extra, g ≠ [] ∧ ∀ x ∈ g, ¬ x = '/'

/-- Declarative shape of a full path accepted by the identifier pattern,
`c`, `s`, `f` being its first three (captured) segments. -/
def IdentShape (p c s f : Str) : Prop :=
  ∃ (ws : Bool) (extra : List Str) (trail : Bool),
    p = (if ws then gvfs_prefix_str else []) ++ restOf (c :: s :: f :: extra) trail ∧
    ∀ g ∈ c :: s :: f :: extra, g ≠ [] ∧ ∀ x ∈ g, ¬ x = '/'

theorem pattern_trim_concat_empty (l : List Str) : pattern_trim (l ++ [[]]) = l := by
  rw [pattern_trim, if_pos]
  · exact List.dropLast_concat
  · exact ⟨by simp, by simp⟩

theorem pattern_trim_of_getLast_ne {l : List Str} (h : ∀ g ∈ l, g ≠ []) :
    pattern_trim l = l := by
  rw [pattern_trim, if_neg]
  rintro ⟨-, hlast⟩
  exact h [] (getLast?_mem hlast) rfl

theorem pattern_core_iff {body c s f : Str} :
    pattern_core body = some (c, s, f) ↔ BodyShape body c s f := by
  constructor
  · intro h
    cases hsp : splitSlash body with
    | nil => exact absurd hsp (splitSlash_ne_nil body)
    | cons hd segs =>
      cases hd with
      | cons x xs =>
        rw [show pattern_core body = none from by unfold pattern_core; rw [hsp]] at h
        simp at h
      | nil =>
        rw [show pattern_core body = pattern_segs segs from by
          unfold pattern_core; rw [hsp]] at h
        cases htr : pattern_trim segs with
        | nil =>
          rw [show pattern_segs segs = none from by unfold pattern_segs; rw [htr]] at h
          simp at h
        | cons c1 rest1 =>
          cases rest1 with
          | nil =>
            rw [show pattern_segs segs = none from by unfold pattern_segs; rw [htr]] at h
            simp at h
          | cons s1 rest2 =>
            cases rest2 with
            | nil =>
              rw [show pattern_segs segs = none from by
                unfold pattern_segs; rw [htr]] at h
              simp at h
            | cons f1 rest =>
              rw [show pattern_segs segs
                  = if (c1 :: s1 :: f1 :: rest).all (fun g => ¬ g.isEmpty) then
                      some (c1, s1, f1) else none from by
                unfold pattern_segs; rw [htr]] at h
              by_cases hall : ((c1 :: s1 :: f1 :: rest).all (fun g => ¬ g.isEmpty)) = true
              · rw [if_pos hall] at h
                have hval : c1 = c ∧ s1 = s ∧ f1 = f := by simpa using h
                rw [← hval.1, ← hval.2.1, ← hval.2.2]
                have hne : ∀ g ∈ c1 :: s1 :: f1 :: rest, g ≠ [] := by
                  intro g hg
                  have := (List.all_eq_true.mp hall) g hg
                  simpa [List.isEmpty_iff] using this
                have hmem : ∀ g ∈ c1 :: s1 :: f1 :: rest, g ∈ segs := by
                  intro g hg
                  by_cases hcond : ¬ segs.isEmpty ∧ segs.getLast? = some []
                  · rw [pattern_trim, if_pos hcond] at htr
                    have hsub : segs.dropLast.Sublist segs := List.dropLast_sublist segs
                    exact hsub.mem (htr ▸ hg)
                  · rw [pattern_trim, if_neg hcond] at htr
                    exact htr ▸ hg
                have hslash : ∀ g ∈ c1 :: s1 :: f1 :: rest, ∀ x ∈ g, ¬ x = '/' := by
                  intro g hg
                  exact splitSlash_mem_noSlash (s := body)
                    (by rw [hsp]; exact List.mem_cons_of_mem _ (hmem g hg))
                refine ⟨rest, ?_, ?_, fun g hg => ⟨hne g hg, hslash g hg⟩⟩
                · exact if (¬ segs.isEmpty ∧ segs.getLast? = some []) then true else false
                · by_cases hcond : ¬ segs.isEmpty ∧ segs.getLast? = some []
                  · rw [if_pos hcond]
                    rw [pattern_trim, if_pos hcond] at htr
                    have hsegs : segs = (c1 :: s1 :: f1 :: rest) ++ [[]] := by
                      rw [← htr]
                      exact (dropLast_append_getLast? hcond.2).symm
                    rw [← joinSlash_shape]
                    show body = joinSlash ([] :: ((c1 :: s1 :: f1 :: rest) ++ [[]]))
                    rw [← hsegs, ← hsp, joinSlash_splitSlash]
                  · rw [if_neg hcond]
                    rw [pattern_trim, if_neg hcond] at htr
                    rw [← joinSlash_shape]
                    show body = joinSlash ([] :: ((c1 :: s1 :: f1 :: rest) ++ []))
                    rw [List.append_nil, ← htr, ← hsp, joinSlash_splitSlash]
              · rw [if_neg hall] at h; simp at h
  · rintro ⟨extra, trail, rfl, hseg⟩
    have hsf : ∀ g ∈ c :: s :: f :: extra, ∀ x ∈ g, ¬ x = '/' :=
      fun g hg => (hseg g hg).2
    have hsp := splitSlash_restOf (c :: s :: f :: extra) trail hsf
    have htr : pattern_trim ((c :: s :: f :: extra) ++ if trail then [[]] else [])
        = c :: s :: f :: extra := by
      cases trail with
      | true => exact pattern_trim_concat_empty _
      | false =>
        simp only [Bool.false_eq_true, if_false, List.append_nil]
        exact pattern_trim_of_getLast_ne (fun g hg => (hseg g hg).1)
    rw [show pattern_core (restOf (c :: s :: f :: extra) trail)
        = pattern_segs ((c :: s :: f :: extra) ++ if trail then [[]] else []) from by
      unfold pattern_core; rw [hsp]]
    rw [show pattern_segs ((c :: s :: f :: extra) ++ if trail then [[]] else [])
        = if (c :: s :: f :: extra).all (fun g => ¬ g.isEmpty) then
            some (c, s, f) else none from by
      unfold pattern_segs; rw [htr]]
    rw [if_pos]
    exact List.all_eq_true.mpr (fun g hg => by
      simpa [List.isEmpty_iff] using (hseg g hg).1)

theorem identifier_pattern_match_iff {p c s f : Str} :
    identifier_pattern_match p = some (c, s, f) ↔ IdentShape p c s f := by
  rw [identifier_pattern_match]
  by_cases hb : gvfs_prefix_str.isPrefixOf p = true
  · rw [if_pos hb]
    obtain ⟨t, rfl⟩ := isPrefixOf_iff_exists.mp hb
    rw [List.drop_left, pattern_core_iff]
    constructor
    · rintro ⟨extra, trail, ht, hseg⟩
      exact ⟨true, extra, trail, by simp [ht], hseg⟩
    · rintro ⟨ws, extra, trail, heq, hseg⟩
      cases ws with
      | false =>
        exfalso
        have := congrArg List.head? heq
        simp [gvfs_prefix_str, restOf] at this
      | true =>
        refine ⟨extra, trail, ?_, hseg⟩
        have heq2 : gvfs_prefix_str ++ t
            = gvfs_prefix_str ++ restOf (c :: s :: f :: extra) trail := by
          simpa using heq
        exact List.append_cancel_left heq2
  · rw [if_neg hb, pattern_core_iff]
    constructor
    · rintro ⟨extra, trail, hp, hseg⟩
      exact ⟨false, extra, trail, by simpa using hp, hseg⟩
    · rintro ⟨ws, extra, trail, heq, hseg⟩
      cases ws with
      | false => exact ⟨extra, trail, by simpa using heq, hseg⟩
      | true =>
        exfalso
        apply hb
        have heq2 : p = gvfs_prefix_str ++ restOf (c :: s :: f :: extra) trail := by
          simpa using heq
        rw [heq2]
        exact isPrefixOf_append_self _ _

theorem identShape_ne_nil {p c s f : Str} (h : IdentShape p c s f) : p ≠ [] := by
  obtain ⟨ws, extra, trail, heq, -⟩ := h
  rw [heq]
  cases ws <;> simp [restOf, gvfs_prefix_str]

theorem extract_identifier_eq_ok_iff {m p : Str} {i : NameIdentifier} :
    extract_identifier m p = .ok i ↔
      ∃ c s f, i = ⟨m, c, s, f⟩ ∧ IdentShape p c s f := by
  unfold extract_identifier
  by_cases hp : p.isEmpty = true
  · rw [if_pos hp]
    constructor
    · intro h; exact absurd h (by simp)
    · rintro ⟨c, s, f, -, hshape⟩
      exact absurd (List.isEmpty_iff.mp hp) (identShape_ne_nil hshape)
  · rw [if_neg hp]
    cases hm : identifier_pattern_match p with
    | none =>
      constructor
      · intro h; exact absurd h (by simp)
      · rintro ⟨c, s, f, -, hshape⟩
        have := identifier_pattern_match_iff.mpr hshape
        rw [hm] at this
        exact absurd this (by simp)
    | some val =>
      obtain ⟨c0, s0, f0⟩ := val
      constructor
      · intro h
        have h2 : Except.ok (⟨m, c0, s0, f0⟩ : NameIdentifier) = Except.ok i := h
        simp only [Except.ok.injEq] at h2
        exact ⟨c0, s0, f0, h2.symm, identifier_pattern_match_iff.mp hm⟩
      · rintro ⟨c, s, f, hi, hshape⟩
        have heqm := identifier_pattern_match_iff.mpr hshape
        rw [hm] at heqm
        simp only [Option.some.injEq] at heqm
        obtain ⟨h1, h2, h3⟩ : c0 = c ∧ s0 = s ∧ f0 = f :=
          ⟨congrArg Prod.fst heqm, by
            simpa using congrArg (fun q => q.2.1) heqm, by
            simpa using congrArg (fun q => q.2.2) heqm⟩
        show Except.ok (⟨m, c0, s0, f0⟩ : NameIdentifier) = Except.ok i
        rw [hi, h1, h2, h3]

section ResolveEquations

variable {b : Backend} {catalog : NameIdentifier → Except String Fileset}
variable {metalake v : Str} {i : NameIdentifier} {fileset : Fileset}

theorem resolve_context_extract_error {e : PyError}
    (he : extract_identifier metalake v = .error e) :
    resolve_context b catalog metalake v = (.error e, []) := by
  unfold resolve_context; simp only [he]

theorem resolve_context_catalog_error {m : String}
    (hex : extract_identifier metalake v = .ok i) (hcat : catalog i = .error m) :
    resolve_context b catalog metalake v = (.error (.backendErr m), [.catalogLoad i]) := by
  unfold resolve_context; simp only [hex, hcat]

theorem resolve_context_not_hdfs
    (hex : extract_identifier metalake v = .ok i) (hcat : catalog i = .ok fileset)
    (hh : ¬ hdfs_prefix_str.isPrefixOf fileset.storage_location = true) :
    resolve_context b catalog metalake v
      = (.error (.valueError "Storage under the fileset doesn't support now."),
          [.catalogLoad i]) := by
  unfold resolve_context
  simp only [hex, hcat]
  rw [if_pos hh]

theorem resolve_context_path_error {e : PyError}
    (hex : extract_identifier metalake v = .ok i) (hcat : catalog i = .ok fileset)
    (hh : hdfs_prefix_str.isPrefixOf fileset.storage_location = true)
    (hga : get_actual_path_by_ident b i fileset v = .error e) :
    resolve_context b catalog metalake v
      = (.error e, [.catalogLoad i, .probeInfo (strip_protocol fileset.storage_location)]) := by
  unfold resolve_context
  simp only [hex, hcat]
  rw [if_neg (fun hc => hc hh)]
  simp only [hga]

theorem resolve_context_ok {a : Str}
    (hex : extract_identifier metalake v = .ok i) (hcat : catalog i = .ok fileset)
    (hh : hdfs_prefix_str.isPrefixOf fileset.storage_location = true)
    (hga : get_actual_path_by_ident b i fileset v = .ok a) :
    resolve_context b catalog metalake v
      = (.ok (i, fileset, a),
          [.catalogLoad i, .probeInfo (strip_protocol fileset.storage_location)]) := by
  unfold resolve_context
  simp only [hex, hcat]
  rw [if_neg (fun hc => hc hh)]
  simp only [hga]

theorem resolve_context_fst_ok_inv {a : Str}
    (h : (resolve_context b catalog metalake v).1 = .ok (i, fileset, a)) :
    extract_identifier metalake v = .ok i ∧ catalog i = .ok fileset ∧
      hdfs_prefix_str.isPrefixOf fileset.storage_location = true ∧
      get_actual_path_by_ident b i fileset v = .ok a := by
  cases hex : extract_identifier metalake v with
  | error e => rw [resolve_context_extract_error hex] at h; simp at h
  | ok i0 =>
    cases hcat : catalog i0 with
    | error m => rw [resolve_context_catalog_error hex hcat] at h; simp at h
    | ok fs0 =>
      by_cases hh : hdfs_prefix_str.isPrefixOf fs0.storage_location = true
      · cases hga : get_actual_path_by_ident b i0 fs0 v with
        | error e => rw [resolve_context_path_error hex hcat hh hga] at h; simp at h
        | ok a0 =>
          rw [resolve_context_ok hex hcat hh hga] at h
          simp only [Except.ok.injEq, Prod.mk.injEq] at h
          obtain ⟨h1, h2, h3⟩ := h
          refine ⟨?_, ?_, ?_, ?_⟩
          · rw [h1]
          · rw [← h1, ← h2]; exact hcat
          · rw [← h2]; exact hh
          · rw [← h1, ← h2, ← h3]; exact hga
      · rw [resolve_context_not_hdfs hex hcat hh] at h; simp at h

end ResolveEquations

section FacadeEquations

variable {b : Backend} {catalog : NameIdentifier → Except String Fileset}
variable {metalake v : Str} {i : NameIdentifier} {fileset : Fileset} {a : Str}
variable {ops : List Op}

theorem ls_resolve_error {e : PyError}
    (hres : resolve_context b catalog metalake v = (.error e, ops)) :
    ls b catalog metalake v = (.error e, ops) := by
  unfold ls; simp only [hres]

theorem ls_list_error {m : String}
    (hres : resolve_context b catalog metalake v = (.ok (i, fileset, a), ops))
    (hh : hdfs_prefix_str.isPrefixOf a = true)
    (hl : b.list_selector (strip_protocol a) = .error m) :
    ls b catalog metalake v
      = (.error (.backendErr m), ops ++ [.listSel (strip_protocol a)]) := by
  unfold ls
  simp only [hres]
  rw [if_neg (fun hc => hc hh)]
  simp only [hl]

theorem ls_list_ok {infos : List FileInfo}
    (hres : resolve_context b catalog metalake v = (.ok (i, fileset, a), ops))
    (hh : hdfs_prefix_str.isPrefixOf a = true)
    (hl : b.list_selector (strip_protocol a) = .ok infos) :
    ls b catalog metalake v
      = (infos.mapM (fun fi =>
          convert_file_info_path_prefix_sub fi fileset.storage_location
            (get_virtual_location i true)),
        ops ++ [.listSel (strip_protocol a)]) := by
  unfold ls
  simp only [hres]
  rw [if_neg (fun hc => hc hh)]
  simp only [hl]

theorem info_resolve_error {e : PyError}
    (hres : resolve_context b catalog metalake v = (.error e, ops)) :
    info b catalog metalake v = (.error e, ops) := by
  unfold info; simp only [hres]

theorem info_not_hdfs
    (hres : resolve_context b catalog metalake v = (.ok (i, fileset, a), ops))
    (hh : ¬ hdfs_prefix_str.isPrefixOf a = true) :
    info b catalog metalake v
      = (.error (.valueError "Storage under the fileset doesn't support now."), ops) := by
  unfold info
  simp only [hres]
  rw [if_pos hh]

theorem info_backend_error {m : String}
    (hres : resolve_context b catalog metalake v = (.ok (i, fileset, a), ops))
    (hh : hdfs_prefix_str.isPrefixOf a = true)
    (hg : b.get_file_info (strip_protocol a) = .error m) :
    info b catalog metalake v
      = (.error (.backendErr m), ops ++ [.probeInfo (strip_protocol a)]) := by
  unfold info
  simp only [hres]
  rw [if_neg (fun hc => hc hh)]
  simp only [hg]

theorem info_backend_ok {fi : FileInfo}
    (hres : resolve_context b catalog metalake v = (.ok (i, fileset, a), ops))
    (hh : hdfs_prefix_str.isPrefixOf a = true)
    (hg : b.get_file_info (strip_protocol a) = .ok fi) :
    info b catalog metalake v
      = (convert_file_info_path_prefix_sub fi fileset.storage_location
          (get_virtual_location i true),
        ops ++ [.probeInfo (strip_protocol a)]) := by
  unfold info
  simp only [hres]
  rw [if_neg (fun hc => hc hh)]
  simp only [hg]

end FacadeEquations

theorem convert_notFound_inv {fi : FileInfo} {S vloc : Str} {p : Str}
    (h : convert_file_info_path_prefix_sub fi S vloc = .error (.fileNotFound p)) :
    fi.ftype = .NotFound ∧ p = fi.path ∧
      (strip_protocol S).isPrefixOf fi.path = true := by
  unfold convert_file_info_path_prefix_sub at h
  by_cases hpre : (strip_protocol S).isPrefixOf fi.path = true
  · rw [if_neg (fun hc => hc hpre)] at h
    cases hft : fi.ftype with
    | Directory => rw [hft] at h; simp at h
    | File => rw [hft] at h; simp at h
    | Other => rw [hft] at h; simp at h
    | NotFound =>
      rw [hft] at h
      simp only [Except.error.injEq, PyError.fileNotFound.injEq] at h
      exact ⟨rfl, h.symm, hpre⟩
  · rw [if_pos hpre] at h
    simp at h

theorem convert_ok_starts {fi : FileInfo} {S vloc : Str} {d : FileInfoDict}
    (h : convert_file_info_path_prefix_sub fi S vloc = .ok d) :
    ∃ t, fi.path = strip_protocol S ++ t := by
  by_cases hpre : (strip_protocol S).isPrefixOf fi.path = true
  · exact isPrefixOf_iff_exists.mp hpre
  · rw [convert_file_info_path_prefix_sub, if_pos hpre] at h
    simp at h

/-- The composite the round-trip law is about, exactly as an `info` call
performs it for a fileset that is not a single-file mount: translate the
virtual path to an actual path (`_get_actual_path_by_ident`, non-single-file
branch), query the backend at `strip_protocol actual` (pyarrow reports back
that same stripped path with the given type/size/mtime), and convert the
result through `_convert_file_info_path_prefix_sub` with the scheme-qualified
virtual location, which is what `info`/`ls` pass
(`self._get_virtual_location(context.name_identifier, True)`). -/
def round_trip (i : NameIdentifier) (fileset : Fileset) (ft : FileType)
    (sz mt : Int) (v : Str) : Except PyError FileInfoDict :=
  match translate_virtual i fileset false v with
  | .error e => .error e
  | .ok a =>
    convert_file_info_path_prefix_sub ⟨strip_protocol a, ft, sz, mt⟩
      fileset.storage_location (get_virtual_location i true)

theorem get_virtual_location_ne_nil (i : NameIdentifier) (ws : Bool) :
    get_virtual_location i ws ≠ [] := by
  cases ws <;> simp [get_virtual_location, gvfs_prefix_str]

theorem head?_append_of_ne_nil {l : Str} (t : Str) (h : l ≠ []) :
    (l ++ t).head? = l.head? := by
  cases l with
  | nil => exact absurd rfl h
  | cons a as => rfl

theorem append_cons_ne (l : Str) (c : Char) (t : Str) : l ≠ l ++ c :: t := by
  intro h
  have := congrArg List.length h
  simp at this

theorem isPrefixOf_virtual_location_append (i : NameIdentifier) (ws : Bool) (x : Str) :
    gvfs_prefix_str.isPrefixOf (get_virtual_location i ws ++ x) = ws := by
  cases ws with
  | true =>
    rw [get_virtual_location]
    simp only [if_pos, List.append_assoc]
    exact isPrefixOf_append_self _ _
  | false =>
    rw [get_virtual_location]
    simp only [Bool.false_eq_true, if_false, List.nil_append, List.cons_append]
    exact gvfs_not_prefixOf_slash _

theorem isPrefixOf_virtual_location (i : NameIdentifier) (ws : Bool) :
    gvfs_prefix_str.isPrefixOf (get_virtual_location i ws) = ws := by
  have := isPrefixOf_virtual_location_append i ws []
  simpa using this

theorem check_mount_single_file_eq_true {b : Backend} {fileset : Fileset}
    {pinfo : FileInfo}
    (hprobe : b.get_file_info (strip_protocol fileset.storage_location) = .ok pinfo)
    (hfile : pinfo.ftype = .File) :
    check_mount_single_file b fileset = .ok true := by
  unfold check_mount_single_file
  simp only [hprobe]
  simp [hfile]

theorem check_mount_single_file_eq_false {b : Backend} {fileset : Fileset}
    {pinfo : FileInfo}
    (hprobe : b.get_file_info (strip_protocol fileset.storage_location) = .ok pinfo)
    (hfile : ¬ pinfo.ftype = .File) :
    check_mount_single_file b fileset = .ok false := by
  unfold check_mount_single_file
  simp only [hprobe]
  simp [hfile]

theorem ls_not_hdfs {b : Backend} {catalog : NameIdentifier → Except String Fileset}
    {metalake v : Str} {i : NameIdentifier} {fileset : Fileset} {a : Str} {ops : List Op}
    (hres : resolve_context b catalog metalake v = (.ok (i, fileset, a), ops))
    (hh : ¬ hdfs_prefix_str.isPrefixOf a = true) :
    ls b catalog metalake v
      = (.error (.valueError "Storage under the fileset doesn't support now."), ops) := by
  unfold ls
  simp only [hres]
  rw [if_pos hh]

theorem ls_fst_ok_inv {b : Backend} {catalog : NameIdentifier → Except String Fileset}
    {metalake v : Str} {entries : List FileInfoDict}
    (h : (ls b catalog metalake v).1 = .ok entries) :
    ∃ i' fs' a, (resolve_context b catalog metalake v).1 = .ok (i', fs', a)
      ∧ hdfs_prefix_str.isPrefixOf a = true := by
  cases hres : resolve_context b catalog metalake v with
  | mk r ops =>
    cases r with
    | error e => rw [ls_resolve_error hres] at h; simp at h
    | ok trip =>
      obtain ⟨i', fs', a⟩ := trip
      by_cases hh : hdfs_prefix_str.isPrefixOf a = true
      · exact ⟨i', fs', a, rfl, hh⟩
      · rw [ls_not_hdfs hres hh] at h; simp at h

end Gvfs

/-- C6: an actual path returned by the backend that does not start with the
fileset's (stripped) storage-location prefix makes the actual-to-virtual
translation fail with a `ValueError` rather than produce a virtual path;
conversely any successful translation came from a path that started with the
storage-location prefix. -/
theorem c6_prefix_mismatch_rejection (fi : Gvfs.FileInfo) (S vloc : Gvfs.Str) :
    (¬ (Gvfs.strip_protocol S).isPrefixOf fi.path = true →
      Gvfs.convert_file_info_path_prefix_sub fi S vloc
        = .error (.valueError "Path does not start with valid prefix."))
    ∧ (∀ d, Gvfs.convert_file_info_path_prefix_sub fi S vloc = .ok d →
        ∃ t, fi.path = Gvfs.strip_protocol S ++ t) := by
  constructor
  · intro h
    unfold Gvfs.convert_file_info_path_prefix_sub
    rw [if_pos h]
  · intro d hd
    exact Gvfs.convert_ok_starts hd

/-- Witness for C6, the spec's own example: actual path `/unrelated/path`
against storage location `/fileset/root` is rejected. -/
theorem c6_prefix_mismatch_rejection_witness :
    Gvfs.convert_file_info_path_prefix_sub ⟨"/unrelated/path".data, .File, 0, 0⟩
        "/fileset/root".data "gvfs://fileset/c/s/f".data
      = .error (.valueError "Path does not start with valid prefix.") :=
  (c6_prefix_mismatch_rejection ⟨"/unrelated/path".data, .File, 0, 0⟩
    "/fileset/root".data "gvfs://fileset/c/s/f".data).1 (by decide)

/-- C7: `_extract_identifier` succeeds exactly on paths of the shape
`(gvfs://fileset)?/<catalog>/<schema>/<fileset>(/<segment>)*/?` with non-empty
slash-free segments, capturing the first three segments (`IdentShape`); it
fails on an empty path, on a path with fewer than three segments, and on a
path with an embedded scheme (whose `//` yields an empty segment).  Parsing is
a pure function of the path. -/
theorem c7_identifier_parsing (m p : Gvfs.Str) (i : Gvfs.NameIdentifier) :
    (Gvfs.extract_identifier m p = .ok i ↔
      ∃ c s f, i = ⟨m, c, s, f⟩ ∧ Gvfs.IdentShape p c s f)
    ∧ Gvfs.extract_identifier m []
        = .error (.valueError "path which need be extracted cannot be null or empty.")
    ∧ Gvfs.extract_identifier m "/a/b".data
        = .error (.valueError "path doesn't contains valid identifier.")
    ∧ Gvfs.extract_identifier m "gvfs://fileset/a/b/s3://x".data
        = .error (.valueError "path doesn't contains valid identifier.") :=
  ⟨Gvfs.extract_identifier_eq_ok_iff, rfl, rfl, rfl⟩

/-- C3: for a fileset whose storage location the backend reports as a single
file, (1) virtual-to-actual translation succeeds, returning exactly the
storage location, if and only if the virtual path equals the fileset's virtual
location (in the caller's own scheme style); (2) every virtual path with a
non-empty sub-path fails with the wrapped resolution error; (3) a successful
`ls` is only possible for the exact virtual location; (4) listing the exact
virtual location fails when the backend refuses to list the (file) storage
location as a directory. -/
theorem c3_single_file_mount
    (b : Gvfs.Backend) (catalog : Gvfs.NameIdentifier → Except String Gvfs.Fileset)
    (metalake : Gvfs.Str) (i : Gvfs.NameIdentifier) (fileset : Gvfs.Fileset)
    (pinfo : Gvfs.FileInfo)
    (hprobe : b.get_file_info (Gvfs.strip_protocol fileset.storage_location) = .ok pinfo)
    (hfile : pinfo.ftype = .File) :
    (∀ v p, Gvfs.get_actual_path_by_ident b i fileset v = .ok p ↔
        (v = Gvfs.get_virtual_location i (Gvfs.gvfs_prefix_str.isPrefixOf v)
          ∧ p = fileset.storage_location))
    ∧ (∀ (ws : Bool) (r : Gvfs.Str), r ≠ [] →
        Gvfs.get_actual_path_by_ident b i fileset
            (Gvfs.get_virtual_location i ws ++ '/' :: r)
          = .error (.exceptionErr "Cannot resolve path to actual storage path"))
    ∧ (∀ v entries, (Gvfs.ls b catalog metalake v).1 = .ok entries →
        Gvfs.extract_identifier metalake v = .ok i → catalog i = .ok fileset →
        v = Gvfs.get_virtual_location i (Gvfs.gvfs_prefix_str.isPrefixOf v))
    ∧ (∀ (ws : Bool) (m : String),
        Gvfs.extract_identifier metalake (Gvfs.get_virtual_location i ws) = .ok i →
        catalog i = .ok fileset →
        Gvfs.hdfs_prefix_str.isPrefixOf fileset.storage_location = true →
        b.list_selector (Gvfs.strip_protocol fileset.storage_location) = .error m →
        (Gvfs.ls b catalog metalake (Gvfs.get_virtual_location i ws)).1
          = .error (.backendErr m)) := by
  have hc : Gvfs.check_mount_single_file b fileset = .ok true :=
    Gvfs.check_mount_single_file_eq_true hprobe hfile
  have hiff : ∀ v p, Gvfs.get_actual_path_by_ident b i fileset v = .ok p ↔
      (v = Gvfs.get_virtual_location i (Gvfs.gvfs_prefix_str.isPrefixOf v)
        ∧ p = fileset.storage_location) := by
    intro v p
    unfold Gvfs.get_actual_path_by_ident
    simp only [hc]
    unfold Gvfs.translate_virtual
    simp only [if_pos]
    by_cases hv : v = Gvfs.get_virtual_location i (Gvfs.gvfs_prefix_str.isPrefixOf v)
    · rw [if_neg (fun hcontra => hcontra hv)]
      constructor
      · intro h
        have h2 : fileset.storage_location = p := by simpa using h
        exact ⟨hv, h2.symm⟩
      · rintro ⟨-, rfl⟩
        rfl
    · rw [if_pos hv]
      simp [hv]
  have herr : ∀ (ws : Bool) (r : Gvfs.Str), r ≠ [] →
      Gvfs.get_actual_path_by_ident b i fileset
          (Gvfs.get_virtual_location i ws ++ '/' :: r)
        = .error (.exceptionErr "Cannot resolve path to actual storage path") := by
    intro ws r _
    unfold Gvfs.get_actual_path_by_ident
    simp only [hc]
    unfold Gvfs.translate_virtual
    simp only [if_pos, Gvfs.isPrefixOf_virtual_location_append]
    rw [if_pos (fun hcontra =>
      Gvfs.append_cons_ne (Gvfs.get_virtual_location i ws) '/' r hcontra.symm)]
  refine ⟨hiff, herr, ?_, ?_⟩
  · intro v entries hok hex hcat
    obtain ⟨i', fs', a, hres1, hh⟩ := Gvfs.ls_fst_ok_inv hok
    obtain ⟨hex', hcat', hhdfs', hga'⟩ := Gvfs.resolve_context_fst_ok_inv hres1
    have hi : i' = i := by
      rw [hex] at hex'
      simpa using hex'.symm
    rw [hi] at hcat'
    have hfs : fs' = fileset := by
      rw [hcat] at hcat'
      simpa using hcat'.symm
    rw [hi, hfs] at hga'
    exact ((hiff v a).mp hga').1
  · intro ws m hex hcat hhdfs hlist
    have hga : Gvfs.get_actual_path_by_ident b i fileset (Gvfs.get_virtual_location i ws)
        = .ok fileset.storage_location :=
      (hiff _ _).mpr ⟨by rw [Gvfs.isPrefixOf_virtual_location], rfl⟩
    have hres := Gvfs.resolve_context_ok (b := b) hex hcat hhdfs hga
    rw [Gvfs.ls_list_error hres hhdfs hlist]

/-- Witness for C3 at a concrete single-file fileset: the sub-path `x` under
the virtual location is rejected, and listing the exact virtual location
surfaces the backend's refusal to list a file. -/
theorem c3_single_file_mount_witness :
    Gvfs.get_actual_path_by_ident
        ⟨fun p => if p = "/d".data then .ok ⟨"/d".data, .File, 0, 0⟩ else .error "missing",
          fun _ => .error "NotADirectory"⟩
        ⟨"m".data, "c".data, "s".data, "f".data⟩ ⟨"hdfs://h/d".data⟩
        (Gvfs.get_virtual_location ⟨"m".data, "c".data, "s".data, "f".data⟩ false
          ++ '/' :: "x".data)
      = .error (.exceptionErr "Cannot resolve path to actual storage path")
    ∧ (Gvfs.ls
        ⟨fun p => if p = "/d".data then .ok ⟨"/d".data, .File, 0, 0⟩ else .error "missing",
          fun _ => .error "NotADirectory"⟩
        (fun j => if j = ⟨"m".data, "c".data, "s".data, "f".data⟩ then
          .ok ⟨"hdfs://h/d".data⟩ else .error "no")
        "m".data
        (Gvfs.get_virtual_location ⟨"m".data, "c".data, "s".data, "f".data⟩ false)).1
      = .error (.backendErr "NotADirectory") :=
  ⟨(c3_single_file_mount
      ⟨fun p => if p = "/d".data then .ok ⟨"/d".data, .File, 0, 0⟩ else .error "missing",
        fun _ => .error "NotADirectory"⟩
      (fun j => if j = ⟨"m".data, "c".data, "s".data, "f".data⟩ then
        .ok ⟨"hdfs://h/d".data⟩ else .error "no")
      "m".data ⟨"m".data, "c".data, "s".data, "f".data⟩ ⟨"hdfs://h/d".data⟩
      ⟨"/d".data, .File, 0, 0⟩ rfl rfl).2.1 false "x".data (by decide),
   (c3_single_file_mount
      ⟨fun p => if p = "/d".data then .ok ⟨"/d".data, .File, 0, 0⟩ else .error "missing",
        fun _ => .error "NotADirectory"⟩
      (fun j => if j = ⟨"m".data, "c".data, "s".data, "f".data⟩ then
        .ok ⟨"hdfs://h/d".data⟩ else .error "no")
      "m".data ⟨"m".data, "c".data, "s".data, "f".data⟩ ⟨"hdfs://h/d".data⟩
      ⟨"/d".data, .File, 0, 0⟩ rfl rfl).2.2.2 false "NotADirectory"
      rfl rfl rfl rfl⟩

/-- Witness for C7: a concrete path with a sub-path parses to the identifier
made of its first three segments. -/
theorem c7_identifier_parsing_witness :
    Gvfs.extract_identifier "m".data "gvfs://fileset/cat/sch/fs/sub".data
      = .ok ⟨"m".data, "cat".data, "sch".data, "fs".data⟩ :=
  (c7_identifier_parsing "m".data "gvfs://fileset/cat/sch/fs/sub".data
      ⟨"m".data, "cat".data, "sch".data, "fs".data⟩).1.mpr
    ⟨"cat".data, "sch".data, "fs".data, rfl,
      true, ["sub".data], false, by decide, by decide⟩

/-- Head of a non-empty slash-free string is not a slash. -/
theorem head?_ne_slash {l : Gvfs.Str} (h : l ≠ []) (hs : ∀ x ∈ l, ¬ x = '/') :
    l.head? ≠ some '/' := by
  cases l with
  | nil => exact absurd rfl h
  | cons a as =>
    intro hcon
    simp only [List.head?, Option.some.injEq] at hcon
    exact hs a (by simp) hcon

/-- C1 counterexample: the round-trip law as stated fails.  (1) A virtual path
given without the scheme prefix comes back from the round trip with
`gvfs://fileset` forced onto it, so the result's scheme style does not follow
the caller's input style.  (2) Even for a scheme-prefixed input the round trip
is not the identity when the stripped storage prefix (`/d`) occurs again
inside the relative sub-path: `str.replace` substitutes every occurrence. -/
theorem c1_round_trip_counterexample :
    (Gvfs.round_trip ⟨"m".data, "cat".data, "sch".data, "fs".data⟩
        ⟨"hdfs://h/d".data⟩ .File 0 0 "/cat/sch/fs/x".data
      = .ok ⟨"gvfs://fileset/cat/sch/fs/x".data, 0, "file", 0⟩
      ∧ "gvfs://fileset/cat/sch/fs/x".data ≠ "/cat/sch/fs/x".data)
    ∧ (Gvfs.round_trip ⟨"m".data, "cat".data, "sch".data, "fs".data⟩
        ⟨"hdfs://h/d".data⟩ .File 0 0 "gvfs://fileset/cat/sch/fs/d".data
      = .ok ⟨"gvfs://fileset/cat/sch/fs/cat/sch/fs".data, 0, "file", 0⟩
      ∧ "gvfs://fileset/cat/sch/fs/cat/sch/fs".data
        ≠ "gvfs://fileset/cat/sch/fs/d".data) :=
  ⟨⟨rfl, by decide⟩, ⟨rfl, by decide⟩⟩

/-- C1 amended: for a fileset with HDFS storage location
`hdfs://<host>/<p0>` and any relative sub-path `r` in which the stripped
storage prefix `/<p0>` does not reoccur, the round trip of the virtual path
`<virtual-location>/r` — in either input style `ws` — succeeds and returns the
scheme-prefixed virtual path `gvfs://fileset/<catalog>/<schema>/<fileset>/r`:
the scheme prefix in the result is always present (forced by
`_convert_file_info_path_prefix_sub`), not controlled by the caller's input
style. -/
theorem c1_round_trip_amended
    (m c s f host p0 r : Gvfs.Str) (ws : Bool) (sz mt : Int)
    (hc : c ≠ []) (hcs : ∀ x ∈ c, ¬ x = '/')
    (hhost : ∀ x ∈ host, ¬ x = '/')
    (hp0 : p0 ≠ []) (hp0h : p0.head? ≠ some '/')
    (hocc : Gvfs.occursB ('/' :: p0) ('/' :: r) = false) :
    Gvfs.round_trip ⟨m, c, s, f⟩ ⟨Gvfs.hdfs_prefix_str ++ (host ++ '/' :: p0)⟩ .File sz mt
        (Gvfs.get_virtual_location ⟨m, c, s, f⟩ ws ++ '/' :: r)
      = .ok ⟨Gvfs.gvfs_prefix_str ++ (Gvfs.get_virtual_location ⟨m, c, s, f⟩ false ++ '/' :: r),
          sz, "file", mt⟩ := by
  have hS : Gvfs.strip_protocol (Gvfs.hdfs_prefix_str ++ (host ++ '/' :: p0)) = '/' :: p0 :=
    Gvfs.strip_protocol_hdfs p0 hhost hp0h
  have htrans : Gvfs.translate_virtual ⟨m, c, s, f⟩
      ⟨Gvfs.hdfs_prefix_str ++ (host ++ '/' :: p0)⟩ false
      (Gvfs.get_virtual_location ⟨m, c, s, f⟩ ws ++ '/' :: r)
      = .ok ((Gvfs.hdfs_prefix_str ++ (host ++ '/' :: p0)) ++ '/' :: r) := by
    unfold Gvfs.translate_virtual
    rw [if_neg (by simp)]
    rw [Gvfs.isPrefixOf_virtual_location_append]
    rw [Gvfs.replace_first_at_head _ _
      (Gvfs.get_virtual_location_ne_nil ⟨m, c, s, f⟩ ws)]
  have hstripA : Gvfs.strip_protocol ((Gvfs.hdfs_prefix_str ++ (host ++ '/' :: p0)) ++ '/' :: r)
      = ('/' :: p0) ++ '/' :: r := by
    have hassoc : (Gvfs.hdfs_prefix_str ++ (host ++ '/' :: p0)) ++ '/' :: r
        = Gvfs.hdfs_prefix_str ++ (host ++ '/' :: (p0 ++ '/' :: r)) := by
      simp [List.append_assoc]
    rw [hassoc, Gvfs.strip_protocol_hdfs (p0 ++ '/' :: r) hhost
      (by rw [Gvfs.head?_append_of_ne_nil _ hp0]; exact hp0h)]
    simp
  have hvirt : Gvfs.strip_protocol (Gvfs.get_virtual_location ⟨m, c, s, f⟩ true)
      = Gvfs.get_virtual_location ⟨m, c, s, f⟩ false := by
    have h1 : Gvfs.get_virtual_location ⟨m, c, s, f⟩ true
        = Gvfs.gvfs_prefix_str ++ '/' :: (c ++ '/' :: (s ++ '/' :: f)) := by
      simp [Gvfs.get_virtual_location]
    have h2 : Gvfs.get_virtual_location ⟨m, c, s, f⟩ false
        = '/' :: (c ++ '/' :: (s ++ '/' :: f)) := by
      simp [Gvfs.get_virtual_location]
    rw [h1, h2, Gvfs.strip_protocol_gvfs _
      (by rw [Gvfs.head?_append_of_ne_nil _ hc]; exact head?_ne_slash hc hcs)]
  unfold Gvfs.round_trip
  simp only [htrans]
  unfold Gvfs.convert_file_info_path_prefix_sub
  simp only [hstripA, hS, hvirt]
  rw [if_neg (fun hcon => hcon (Gvfs.isPrefixOf_append_self ('/' :: p0) ('/' :: r)))]
  simp only [Except.ok.injEq, Gvfs.FileInfoDict.mk.injEq]
  refine ⟨?_, trivial, trivial, trivial⟩
  rw [Gvfs.replace_all_of_prefix_no_reocc ('/' :: r)
    (Gvfs.get_virtual_location ⟨m, c, s, f⟩ false) (by simp) hocc]

/-- C2 (code evidence): the fileset cache of `_get_fileset_context` is a plain
`dict` holding no timestamps, so entries never expire.  A first resolution of
an identifier loads from the catalog once and inserts; a second resolution of
the same identifier — the model cannot even observe how much later it runs,
because the code never reads a clock — performs zero catalog loads and
returns the cached entry instead of treating it as absent and reloading. -/
theorem c2_no_ttl_expiry :
    (Gvfs.cache_resolve_step (fun _ => ⟨"hdfs://h/a".data⟩) []
        ⟨"m".data, "c".data, "s".data, "f".data⟩).2.2 = 1
    ∧ (Gvfs.cache_resolve_step (fun _ => ⟨"hdfs://h/a".data⟩)
        (Gvfs.cache_resolve_step (fun _ => ⟨"hdfs://h/a".data⟩) []
          ⟨"m".data, "c".data, "s".data, "f".data⟩).1
        ⟨"m".data, "c".data, "s".data, "f".data⟩).2.2 = 0
    ∧ (Gvfs.cache_resolve_step (fun _ => ⟨"hdfs://h/a".data⟩)
        (Gvfs.cache_resolve_step (fun _ => ⟨"hdfs://h/a".data⟩) []
          ⟨"m".data, "c".data, "s".data, "f".data⟩).1
        ⟨"m".data, "c".data, "s".data, "f".data⟩).2.1
      = ⟨"hdfs://h/a".data⟩
    ∧ (Gvfs.cache_resolve_step (fun _ => ⟨"hdfs://h/a".data⟩)
        (Gvfs.cache_resolve_step (fun _ => ⟨"hdfs://h/a".data⟩) []
          ⟨"m".data, "c".data, "s".data, "f".data⟩).1
        ⟨"m".data, "c".data, "s".data, "f".data⟩).1
      = (Gvfs.cache_resolve_step (fun _ => ⟨"hdfs://h/a".data⟩) []
          ⟨"m".data, "c".data, "s".data, "f".data⟩).1 := by
  refine ⟨rfl, rfl, rfl, rfl⟩

/-- C8 (code evidence): the plain-`dict` cache has no capacity bound and no
LRU eviction.  After resolving two distinct identifiers the cache holds both
entries (so with `maxEntries = 1` it exceeds its supposed bound), and a
subsequent resolution of the first identifier performs zero catalog loads:
nothing was evicted. -/
theorem c8_no_capacity_eviction :
    ((Gvfs.cache_resolve_step (fun _ => ⟨"hdfs://h/a".data⟩)
        (Gvfs.cache_resolve_step (fun _ => ⟨"hdfs://h/a".data⟩) []
          ⟨"m".data, "c1".data, "s".data, "f".data⟩).1
        ⟨"m".data, "c2".data, "s".data, "f".data⟩).1).length = 2
    ∧ (Gvfs.cache_resolve_step (fun _ => ⟨"hdfs://h/a".data⟩)
        (Gvfs.cache_resolve_step (fun _ => ⟨"hdfs://h/a".data⟩)
          (Gvfs.cache_resolve_step (fun _ => ⟨"hdfs://h/a".data⟩) []
            ⟨"m".data, "c1".data, "s".data, "f".data⟩).1
          ⟨"m".data, "c2".data, "s".data, "f".data⟩).1
        ⟨"m".data, "c1".data, "s".data, "f".data⟩).2.2 = 0 := by
  refine ⟨rfl, rfl⟩

/-- C4: when the source and destination paths of a two-path operation parse to
different identifiers, both `mv` and `cp_file` fail with the cross-fileset
`ValueError`, the file namespace is untouched, and the list of catalog/backend
interactions performed is empty: the failure happens before any resolution or
backend call. -/
theorem c4_cross_fileset_rejection
    (b : Gvfs.Backend) (catalog : Gvfs.NameIdentifier → Except String Gvfs.Fileset)
    (metalake src dst : Gvfs.Str) (st : Gvfs.FsState) (tok : Gvfs.Str)
    (fail : Option Gvfs.CopyFailure) (i1 i2 : Gvfs.NameIdentifier)
    (h1 : Gvfs.extract_identifier metalake src = .ok i1)
    (h2 : Gvfs.extract_identifier metalake dst = .ok i2)
    (hne : ¬ i1 = i2) :
    Gvfs.mv b catalog metalake src dst st
      = (.error (.valueError
          "Destination file path identifier should be same with src file path identifier."),
        st, [])
    ∧ Gvfs.cp_file b catalog metalake src dst st tok fail
      = (.error (.valueError
          "Destination file path identifier should be same with src file path identifier."),
        st, []) := by
  constructor
  · unfold Gvfs.mv
    simp only [h1, h2]
    rw [if_pos hne]
  · unfold Gvfs.cp_file
    simp only [h1, h2]
    rw [if_pos hne]

/-- Witness for C4, the spec's own example: moving (or copying)
`/catA/s/f1/x` to `/catB/s/f1/y` is rejected with no backend interaction. -/
theorem c4_cross_fileset_rejection_witness :
    Gvfs.mv ⟨fun _ => .error "e", fun _ => .error "e"⟩ (fun _ => .error "no")
        "m".data "/catA/s/f1/x".data "/catB/s/f1/y".data []
      = (.error (.valueError
          "Destination file path identifier should be same with src file path identifier."),
        [], []) :=
  (c4_cross_fileset_rejection ⟨fun _ => .error "e", fun _ => .error "e"⟩
    (fun _ => .error "no") "m".data "/catA/s/f1/x".data "/catB/s/f1/y".data [] [] none
    ⟨"m".data, "catA".data, "s".data, "f1".data⟩
    ⟨"m".data, "catB".data, "s".data, "f1".data⟩
    rfl rfl (by decide)).1

namespace Gvfs

theorem mem_add_name_self (st : FsState) (p : Str) : p ∈ add_name st p := by
  unfold add_name
  by_cases h : p ∈ st
  · rw [if_pos h]; exact h
  · rw [if_neg h]; simp

theorem mem_add_name_iff (st : FsState) (p q : Str) :
    q ∈ add_name st p ↔ q ∈ st ∨ q = p := by
  unfold add_name
  by_cases h : p ∈ st
  · rw [if_pos h]
    constructor
    · exact Or.inl
    · rintro (hq | rfl)
      · exact hq
      · exact h
  · rw [if_neg h]
    simp

theorem mem_remove_name_iff (st : FsState) (p q : Str) :
    q ∈ remove_name st p ↔ q ∈ st ∧ ¬ q = p := by
  unfold remove_name
  simp [List.mem_filter]

theorem tmp_name_ne_dst (dstA tok : Str) : ¬ tmp_name dstA tok = dstA := by
  intro h
  have := congrArg List.length h
  simp [tmp_name, tmp_mid] at this

end Gvfs

/-- C5: within the write phase of `cp_file`, any injected failure (while
creating the temporary output stream, while streaming the bytes, or while
renaming) leaves the backend error as the surfaced error, leaves no file at
the temporary sibling name (a not-found error from the cleanup delete is
swallowed), and leaves the destination name exactly as it was before the call;
with no failure the copy succeeds, the destination exists, and the temporary
name is gone. -/
theorem c5_copy_atomicity (st : Gvfs.FsState) (srcA dstA tok : Gvfs.Str)
    (fail : Gvfs.CopyFailure)
    (hsrc : srcA ∈ st) (htmp : ¬ Gvfs.tmp_name dstA tok ∈ st) :
    (∃ msg, (Gvfs.cp_file_write st srcA dstA tok (some fail)).1
      = .error (.backendErr msg))
    ∧ ¬ Gvfs.tmp_name dstA tok ∈ (Gvfs.cp_file_write st srcA dstA tok (some fail)).2.1
    ∧ (dstA ∈ (Gvfs.cp_file_write st srcA dstA tok (some fail)).2.1 ↔ dstA ∈ st)
    ∧ (Gvfs.cp_file_write st srcA dstA tok none).1 = .ok ()
    ∧ dstA ∈ (Gvfs.cp_file_write st srcA dstA tok none).2.1
    ∧ ¬ Gvfs.tmp_name dstA tok ∈ (Gvfs.cp_file_write st srcA dstA tok none).2.1 := by
  have hnotsrc : ¬ ¬ srcA ∈ st := fun hcon => hcon hsrc
  have hclean : Gvfs.cp_cleanup (Gvfs.add_name st (Gvfs.tmp_name dstA tok))
      (Gvfs.tmp_name dstA tok)
      = fun orig => (orig, Gvfs.remove_name
          (Gvfs.add_name st (Gvfs.tmp_name dstA tok)) (Gvfs.tmp_name dstA tok)) := by
    funext orig
    unfold Gvfs.cp_cleanup Gvfs.delete_file_op
    rw [if_pos (Gvfs.mem_add_name_self st (Gvfs.tmp_name dstA tok))]
  have hclean0 : Gvfs.cp_cleanup st (Gvfs.tmp_name dstA tok)
      = fun orig => (orig, st) := by
    funext orig
    unfold Gvfs.cp_cleanup Gvfs.delete_file_op
    rw [if_neg htmp]
  have hw_open : Gvfs.cp_file_write st srcA dstA tok (some .openOutFail)
      = (.error (.backendErr "open_output_stream failed"), st,
        [.openIn srcA, .openOut (Gvfs.tmp_name dstA tok),
          .deleteOp (Gvfs.tmp_name dstA tok)]) := by
    unfold Gvfs.cp_file_write
    rw [if_neg hnotsrc]
    simp only [hclean0]
  have hw_copy : Gvfs.cp_file_write st srcA dstA tok (some .copyFail)
      = (.error (.backendErr "stream copy failed"),
        Gvfs.remove_name (Gvfs.add_name st (Gvfs.tmp_name dstA tok))
          (Gvfs.tmp_name dstA tok),
        [.openIn srcA, .openOut (Gvfs.tmp_name dstA tok),
          .deleteOp (Gvfs.tmp_name dstA tok)]) := by
    unfold Gvfs.cp_file_write
    rw [if_neg hnotsrc]
    simp only [hclean]
  have hw_move : Gvfs.cp_file_write st srcA dstA tok (some .moveFail)
      = (.error (.backendErr "move failed"),
        Gvfs.remove_name (Gvfs.add_name st (Gvfs.tmp_name dstA tok))
          (Gvfs.tmp_name dstA tok),
        [.openIn srcA, .openOut (Gvfs.tmp_name dstA tok),
          .moveOp (Gvfs.tmp_name dstA tok) dstA,
          .deleteOp (Gvfs.tmp_name dstA tok)]) := by
    unfold Gvfs.cp_file_write
    rw [if_neg hnotsrc]
    simp only [hclean]
  have hw_none : Gvfs.cp_file_write st srcA dstA tok none
      = (.ok (), Gvfs.add_name (Gvfs.remove_name
          (Gvfs.add_name st (Gvfs.tmp_name dstA tok)) (Gvfs.tmp_name dstA tok)) dstA,
        [.openIn srcA, .openOut (Gvfs.tmp_name dstA tok),
          .moveOp (Gvfs.tmp_name dstA tok) dstA]) := by
    unfold Gvfs.cp_file_write
    rw [if_neg hnotsrc]
  have hmemrm : ∀ q, q ∈ Gvfs.remove_name
      (Gvfs.add_name st (Gvfs.tmp_name dstA tok)) (Gvfs.tmp_name dstA tok)
      ↔ q ∈ st ∧ ¬ q = Gvfs.tmp_name dstA tok := by
    intro q
    rw [Gvfs.mem_remove_name_iff, Gvfs.mem_add_name_iff]
    constructor
    · rintro ⟨hq | rfl, hne⟩
      · exact ⟨hq, hne⟩
      · exact absurd rfl hne
    · rintro ⟨hq, hne⟩
      exact ⟨Or.inl hq, hne⟩
  refine ⟨?_, ?_, ?_, ?_, ?_, ?_⟩
  · cases fail with
    | openOutFail => rw [hw_open]; exact ⟨_, rfl⟩
    | copyFail => rw [hw_copy]; exact ⟨_, rfl⟩
    | moveFail => rw [hw_move]; exact ⟨_, rfl⟩
  · cases fail with
    | openOutFail => rw [hw_open]; exact htmp
    | copyFail =>
      rw [hw_copy]
      intro hcon
      exact ((hmemrm _).mp hcon).2 rfl
    | moveFail =>
      rw [hw_move]
      intro hcon
      exact ((hmemrm _).mp hcon).2 rfl
  · cases fail with
    | openOutFail => rw [hw_open]
    | copyFail =>
      rw [hw_copy]
      show dstA ∈ Gvfs.remove_name _ _ ↔ dstA ∈ st
      rw [hmemrm dstA]
      constructor
      · exact fun hconj => hconj.1
      · intro hm
        exact ⟨hm, fun hx => Gvfs.tmp_name_ne_dst dstA tok hx.symm⟩
    | moveFail =>
      rw [hw_move]
      show dstA ∈ Gvfs.remove_name _ _ ↔ dstA ∈ st
      rw [hmemrm dstA]
      constructor
      · exact fun hconj => hconj.1
      · intro hm
        exact ⟨hm, fun hx => Gvfs.tmp_name_ne_dst dstA tok hx.symm⟩
  · rw [hw_none]
  · rw [hw_none]
    exact Gvfs.mem_add_name_self _ _
  · rw [hw_none]
    intro hcon
    rcases (Gvfs.mem_add_name_iff _ _ _).mp hcon with hq | hq
    · exact ((hmemrm _).mp hq).2 rfl
    · exact Gvfs.tmp_name_ne_dst dstA tok hq

/-- Witness for C5: a concrete mid-stream write failure re-raises the backend
error, cleans up the temporary name, and leaves the destination absent as it
was before. -/
theorem c5_copy_atomicity_witness :
    (∃ msg, (Gvfs.cp_file_write ["/d/src".data] "/d/src".data "/d/dst".data
        "ab".data (some .copyFail)).1 = .error (.backendErr msg))
    ∧ ¬ Gvfs.tmp_name "/d/dst".data "ab".data
        ∈ (Gvfs.cp_file_write ["/d/src".data] "/d/src".data "/d/dst".data
            "ab".data (some .copyFail)).2.1
    ∧ ("/d/dst".data ∈ (Gvfs.cp_file_write ["/d/src".data] "/d/src".data "/d/dst".data
          "ab".data (some .copyFail)).2.1 ↔ "/d/dst".data ∈ ["/d/src".data]) :=
  ⟨(c5_copy_atomicity ["/d/src".data] "/d/src".data "/d/dst".data "ab".data
      .copyFail (by decide) (by decide)).1,
   (c5_copy_atomicity ["/d/src".data] "/d/src".data "/d/dst".data "ab".data
      .copyFail (by decide) (by decide)).2.1,
   (c5_copy_atomicity ["/d/src".data] "/d/src".data "/d/dst".data "ab".data
      .copyFail (by decide) (by decide)).2.2.1⟩

namespace Gvfs

theorem extract_identifier_error_shape {m p : Str} {e : PyError}
    (h : extract_identifier m p = .error e) : ∃ msg, e = .valueError msg := by
  by_cases hp : p.isEmpty = true
  · have h2 : extract_identifier m p
        = .error (.valueError "path which need be extracted cannot be null or empty.") := by
      unfold extract_identifier; rw [if_pos hp]
    have h3 := h2.symm.trans h
    simp only [Except.error.injEq] at h3
    exact ⟨_, h3.symm⟩
  · cases hm : identifier_pattern_match p with
    | none =>
      have h2 : extract_identifier m p
          = .error (.valueError "path doesn't contains valid identifier.") := by
        unfold extract_identifier; rw [if_neg hp]; simp only [hm]
      have h3 := h2.symm.trans h
      simp only [Except.error.injEq] at h3
      exact ⟨_, h3.symm⟩
    | some val =>
      obtain ⟨c0, s0, f0⟩ := val
      have h2 : extract_identifier m p = .ok ⟨m, c0, s0, f0⟩ := by
        unfold extract_identifier; rw [if_neg hp]; simp only [hm]
      rw [h2] at h
      exact absurd h (by simp)

theorem translate_virtual_error_shape {i : NameIdentifier} {fs : Fileset}
    {sf : Bool} {v : Str} {e : PyError}
    (h : translate_virtual i fs sf v = .error e) : ∃ msg, e = .exceptionErr msg := by
  unfold translate_virtual at h
  cases sf with
  | false => exact absurd h (by simp)
  | true =>
    rw [if_pos rfl] at h
    by_cases hv : ¬ v = get_virtual_location i (gvfs_prefix_str.isPrefixOf v)
    · rw [if_pos hv] at h
      simp only [Except.error.injEq] at h
      exact ⟨_, h.symm⟩
    · rw [if_neg hv] at h
      exact absurd h (by simp)

theorem get_actual_path_error_shape {b : Backend} {i : NameIdentifier} {fs : Fileset}
    {v : Str} {e : PyError}
    (h : get_actual_path_by_ident b i fs v = .error e) : ∃ msg, e = .exceptionErr msg := by
  cases hchk : check_mount_single_file b fs with
  | error e0 =>
    have h2 : get_actual_path_by_ident b i fs v
        = .error (.exceptionErr "Cannot resolve path to actual storage path") := by
      unfold get_actual_path_by_ident; simp only [hchk]
    have h3 := h2.symm.trans h
    simp only [Except.error.injEq] at h3
    exact ⟨_, h3.symm⟩
  | ok sf =>
    have h2 : get_actual_path_by_ident b i fs v = translate_virtual i fs sf v := by
      unfold get_actual_path_by_ident; simp only [hchk]
    exact translate_virtual_error_shape (h2.symm.trans h)

theorem resolve_fst_error_not_fnf {b : Backend}
    {catalog : NameIdentifier → Except String Fileset} {metalake v : Str} {e : PyError}
    (h : (resolve_context b catalog metalake v).1 = .error e) :
    ∀ p, ¬ e = .fileNotFound p := by
  cases hex : extract_identifier metalake v with
  | error e0 =>
    rw [resolve_context_extract_error hex] at h
    simp only [Except.error.injEq] at h
    obtain ⟨msg, hmsg⟩ := extract_identifier_error_shape hex
    intro p hp
    rw [← h, hmsg] at hp
    exact PyError.noConfusion hp
  | ok i0 =>
    cases hcat : catalog i0 with
    | error mm =>
      rw [resolve_context_catalog_error hex hcat] at h
      simp only [Except.error.injEq] at h
      intro p hp
      rw [← h] at hp
      exact PyError.noConfusion hp
    | ok fs0 =>
      by_cases hh : hdfs_prefix_str.isPrefixOf fs0.storage_location = true
      · cases hga : get_actual_path_by_ident b i0 fs0 v with
        | error e1 =>
          rw [resolve_context_path_error hex hcat hh hga] at h
          simp only [Except.error.injEq] at h
          obtain ⟨msg, hmsg⟩ := get_actual_path_error_shape hga
          intro p hp
          rw [← h, hmsg] at hp
          exact PyError.noConfusion hp
        | ok a0 =>
          rw [resolve_context_ok hex hcat hh hga] at h
          exact absurd h (by simp)
      · rw [resolve_context_not_hdfs hex hcat hh] at h
        simp only [Except.error.injEq] at h
        intro p hp
        rw [← h] at hp
        exact PyError.noConfusion hp

theorem info_fst_fnf_inv {b : Backend}
    {catalog : NameIdentifier → Except String Fileset} {metalake v : Str} {p : Str}
    (h : (info b catalog metalake v).1 = .error (.fileNotFound p)) :
    ∃ i fs a fi ops, resolve_context b catalog metalake v = (.ok (i, fs, a), ops)
      ∧ b.get_file_info (strip_protocol a) = .ok fi
      ∧ fi.ftype = .NotFound ∧ p = fi.path := by
  cases hres : resolve_context b catalog metalake v with
  | mk r ops =>
    cases r with
    | error e =>
      rw [info_resolve_error hres] at h
      simp only [Except.error.injEq] at h
      exact absurd h (resolve_fst_error_not_fnf (by rw [hres]) p)
    | ok trip =>
      obtain ⟨i, fs, a⟩ := trip
      by_cases hh : hdfs_prefix_str.isPrefixOf a = true
      · cases hgf : b.get_file_info (strip_protocol a) with
        | error msg =>
          rw [info_backend_error hres hh hgf] at h
          simp only [Except.error.injEq] at h
          exact PyError.noConfusion h
        | ok fi =>
          rw [info_backend_ok hres hh hgf] at h
          obtain ⟨hft, hp, -⟩ := convert_notFound_inv h
          exact ⟨i, fs, a, fi, ops, rfl, hgf, hft, hp⟩
      · rw [info_not_hdfs hres hh] at h
        simp only [Except.error.injEq] at h
        exact PyError.noConfusion h

end Gvfs

/-- C10: `exists` returns `False` exactly when `info` raised
`FileNotFoundError` — which can only originate from the `NotFound` branch of
`_convert_file_info_path_prefix_sub`, i.e. the backend reported the probed actual
path as missing; `exists` returns `True` when `info` succeeds; and every other
failure of `info` (invalid path, unsupported storage, prefix mismatch, catalog
or backend error) propagates to the caller unchanged instead of mapping to
`False`. -/
theorem c10_exists_semantics (b : Gvfs.Backend)
    (catalog : Gvfs.NameIdentifier → Except String Gvfs.Fileset)
    (metalake v : Gvfs.Str) :
    (Gvfs.existsOp b catalog metalake v = .ok false ↔
      ∃ p, (Gvfs.info b catalog metalake v).1 = .error (.fileNotFound p))
    ∧ (∀ d, (Gvfs.info b catalog metalake v).1 = .ok d →
        Gvfs.existsOp b catalog metalake v = .ok true)
    ∧ (∀ e, (Gvfs.info b catalog metalake v).1 = .error e →
        (∀ p, ¬ e = .fileNotFound p) →
        Gvfs.existsOp b catalog metalake v = .error e)
    ∧ (∀ p, (Gvfs.info b catalog metalake v).1 = .error (.fileNotFound p) →
        ∃ i fs a fi ops,
          Gvfs.resolve_context b catalog metalake v = (.ok (i, fs, a), ops)
          ∧ b.get_file_info (Gvfs.strip_protocol a) = .ok fi
          ∧ fi.ftype = .NotFound ∧ p = fi.path) := by
  refine ⟨?_, ?_, ?_, fun p hp => Gvfs.info_fst_fnf_inv hp⟩
  · constructor
    · intro h
      cases hinfo : (Gvfs.info b catalog metalake v).1 with
      | ok d =>
        unfold Gvfs.existsOp at h
        rw [hinfo] at h
        exact absurd h (by simp)
      | error e =>
        cases e with
        | fileNotFound q => exact ⟨q, rfl⟩
        | valueError msg =>
          unfold Gvfs.existsOp at h
          rw [hinfo] at h
          exact absurd h (by simp)
        | exceptionErr msg =>
          unfold Gvfs.existsOp at h
          rw [hinfo] at h
          exact absurd h (by simp)
        | backendErr msg =>
          unfold Gvfs.existsOp at h
          rw [hinfo] at h
          exact absurd h (by simp)
    · rintro ⟨p, hp⟩
      unfold Gvfs.existsOp
      rw [hp]
  · intro d hd
    unfold Gvfs.existsOp
    rw [hd]
  · intro e he hnot
    unfold Gvfs.existsOp
    rw [he]
    cases e with
    | fileNotFound q => exact absurd rfl (hnot q)
    | valueError msg => rfl
    | exceptionErr msg => rfl
    | backendErr msg => rfl

/-- Witness for C10: with a backend that reports the probed path as missing,
`exists` returns `False`; with a catalog failure, the error propagates. -/
theorem c10_exists_semantics_witness :
    Gvfs.existsOp
        ⟨fun p => .ok ⟨p, .NotFound, 0, 0⟩, fun _ => .error "x"⟩
        (fun _ => .ok ⟨"hdfs://h/d".data⟩) "m".data "/c/s/f/x".data
      = .ok false
    ∧ Gvfs.existsOp
        ⟨fun p => .ok ⟨p, .NotFound, 0, 0⟩, fun _ => .error "x"⟩
        (fun _ => .error "down") "m".data "/c/s/f/x".data
      = .error (.backendErr "down") :=
  ⟨(c10_exists_semantics ⟨fun p => .ok ⟨p, .NotFound, 0, 0⟩, fun _ => .error "x"⟩
      (fun _ => .ok ⟨"hdfs://h/d".data⟩) "m".data "/c/s/f/x".data).1.mpr
    ⟨"/d/x".data, rfl⟩,
   (c10_exists_semantics ⟨fun p => .ok ⟨p, .NotFound, 0, 0⟩, fun _ => .error "x"⟩
      (fun _ => .error "down") "m".data "/c/s/f/x".data).2.2.1
    (.backendErr "down") rfl (by intro p hp; exact Gvfs.PyError.noConfusion hp)⟩

namespace Gvfs

/-- Case split for a program-counter read after a `Function.update`. -/
theorem update_pc_cases {n : Nat} {F : Type} {pcs : Fin n → SFPc F} {t t' : Fin n}
    {q r : SFPc F} (h : Function.update pcs t q t' = r) :
    (t' = t ∧ q = r) ∨ (¬ t' = t ∧ pcs t' = r) := by
  by_cases ht : t' = t
  · subst ht
    rw [Function.update_same] at h
    exact Or.inl ⟨rfl, h⟩
  · rw [Function.update_noteq ht] at h
    exact Or.inr ⟨ht, h⟩

/-- The inductive invariant of the single-flight system: threads in the
critical section hold the writer lock (so at most one exists), a load can only
be in flight over an empty cache slot, the load counter is 0 before the slot
is filled and 1 afterwards, the slot only ever holds the catalog's value, and
a finished thread has observed the filled slot. -/
def SFInv {n : Nat} {F : Type} (srv : F) (s : SFState n F) : Prop :=
  (∀ t, s.pcs t = .held0 → s.writer = some t) ∧
  (∀ t, s.pcs t = .loadPhase → s.writer = some t) ∧
  (∀ t, s.pcs t = .loadPhase → s.cache = none) ∧
  (s.cache = none → s.loads = 0) ∧
  (∀ v, s.cache = some v → s.loads = 1 ∧ v = srv) ∧
  (∀ t v, s.pcs t = .finished v → v = srv ∧ s.cache = some srv)

theorem sfInit_inv {n : Nat} {F : Type} (srv : F) : SFInv srv (sfInit n F) := by
  refine ⟨?_, ?_, ?_, ?_, ?_, ?_⟩ <;> intro t <;> simp [sfInit] at *

theorem sfStep_inv {n : Nat} {F : Type} {srv : F} {s s' : SFState n F}
    (hstep : SFStep srv s s') (hinv : SFInv srv s) : SFInv srv s' := by
  obtain ⟨i1, i2, i3, i4, i5, i6⟩ := hinv
  cases hstep with
  | readHit t v hpc hw hc =>
    refine ⟨?_, ?_, ?_, i4, i5, ?_⟩
    · intro t' h'
      rcases update_pc_cases h' with ⟨rfl, hq⟩ | ⟨ht, hp⟩
      · exact SFPc.noConfusion hq
      · exact i1 t' hp
    · intro t' h'
      rcases update_pc_cases h' with ⟨rfl, hq⟩ | ⟨ht, hp⟩
      · exact SFPc.noConfusion hq
      · exact i2 t' hp
    · intro t' h'
      rcases update_pc_cases h' with ⟨rfl, hq⟩ | ⟨ht, hp⟩
      · exact SFPc.noConfusion hq
      · exact i3 t' hp
    · intro t' v' h'
      rcases update_pc_cases h' with ⟨rfl, hq⟩ | ⟨ht, hp⟩
      · simp only [SFPc.finished.injEq] at hq
        have h5 := i5 v hc
        refine ⟨hq ▸ h5.2, ?_⟩
        show s.cache = some srv
        rw [hc, h5.2]
      · exact i6 t' v' hp
  | readMiss t hpc hw hc =>
    refine ⟨?_, ?_, ?_, i4, i5, ?_⟩
    · intro t' h'
      rcases update_pc_cases h' with ⟨rfl, hq⟩ | ⟨ht, hp⟩
      · exact SFPc.noConfusion hq
      · exact i1 t' hp
    · intro t' h'
      rcases update_pc_cases h' with ⟨rfl, hq⟩ | ⟨ht, hp⟩
      · exact SFPc.noConfusion hq
      · exact i2 t' hp
    · intro t' h'
      rcases update_pc_cases h' with ⟨rfl, hq⟩ | ⟨ht, hp⟩
      · exact SFPc.noConfusion hq
      · exact i3 t' hp
    · intro t' v' h'
      rcases update_pc_cases h' with ⟨rfl, hq⟩ | ⟨ht, hp⟩
      · exact SFPc.noConfusion hq
      · exact i6 t' v' hp
  | acquire t hpc hw =>
    refine ⟨?_, ?_, ?_, i4, i5, ?_⟩
    · intro t' h'
      rcases update_pc_cases h' with ⟨rfl, hq⟩ | ⟨ht, hp⟩
      · rfl
      · have h0 := i1 t' hp
        rw [hw] at h0
        exact Option.noConfusion h0
    · intro t' h'
      rcases update_pc_cases h' with ⟨rfl, hq⟩ | ⟨ht, hp⟩
      · exact SFPc.noConfusion hq
      · have h0 := i2 t' hp
        rw [hw] at h0
        exact Option.noConfusion h0
    · intro t' h'
      rcases update_pc_cases h' with ⟨rfl, hq⟩ | ⟨ht, hp⟩
      · exact SFPc.noConfusion hq
      · exact i3 t' hp
    · intro t' v' h'
      rcases update_pc_cases h' with ⟨rfl, hq⟩ | ⟨ht, hp⟩
      · exact SFPc.noConfusion hq
      · exact i6 t' v' hp
  | recheckHit t v hpc hw hc =>
    refine ⟨?_, ?_, ?_, ?_, i5, ?_⟩
    · intro t' h'
      rcases update_pc_cases h' with ⟨rfl, hq⟩ | ⟨ht, hp⟩
      · exact SFPc.noConfusion hq
      · have h0 := i1 t' hp
        rw [hw] at h0
        simp only [Option.some.injEq] at h0
        exact absurd h0.symm ht
    · intro t' h'
      rcases update_pc_cases h' with ⟨rfl, hq⟩ | ⟨ht, hp⟩
      · exact SFPc.noConfusion hq
      · have h0 := i2 t' hp
        rw [hw] at h0
        simp only [Option.some.injEq] at h0
        exact absurd h0.symm ht
    · intro t' h'
      rcases update_pc_cases h' with ⟨rfl, hq⟩ | ⟨ht, hp⟩
      · exact SFPc.noConfusion hq
      · have h0 := i2 t' hp
        rw [hw] at h0
        simp only [Option.some.injEq] at h0
        exact absurd h0.symm ht
    · intro hcon
      have hcon2 : s.cache = none := hcon
      rw [hc] at hcon2
      exact Option.noConfusion hcon2
    · intro t' v' h'
      rcases update_pc_cases h' with ⟨rfl, hq⟩ | ⟨ht, hp⟩
      · simp only [SFPc.finished.injEq] at hq
        have h5 := i5 v hc
        refine ⟨hq ▸ h5.2, ?_⟩
        show s.cache = some srv
        rw [hc, h5.2]
      · exact i6 t' v' hp
  | recheckMiss t hpc hw hc =>
    refine ⟨?_, ?_, ?_, i4, i5, ?_⟩
    · intro t' h'
      rcases update_pc_cases h' with ⟨rfl, hq⟩ | ⟨ht, hp⟩
      · exact SFPc.noConfusion hq
      · exact i1 t' hp
    · intro t' h'
      rcases update_pc_cases h' with ⟨rfl, hq⟩ | ⟨ht, hp⟩
      · exact hw
      · exact i2 t' hp
    · intro t' _
      exact hc
    · intro t' v' h'
      rcases update_pc_cases h' with ⟨rfl, hq⟩ | ⟨ht, hp⟩
      · exact SFPc.noConfusion hq
      · exact i6 t' v' hp
  | load t hpc hw =>
    have hcnone : s.cache = none := i3 t hpc
    have hl0 : s.loads = 0 := i4 hcnone
    refine ⟨?_, ?_, ?_, ?_, ?_, ?_⟩
    · intro t' h'
      rcases update_pc_cases h' with ⟨rfl, hq⟩ | ⟨ht, hp⟩
      · exact SFPc.noConfusion hq
      · have h0 := i1 t' hp
        rw [hw] at h0
        simp only [Option.some.injEq] at h0
        exact absurd h0.symm ht
    · intro t' h'
      rcases update_pc_cases h' with ⟨rfl, hq⟩ | ⟨ht, hp⟩
      · exact SFPc.noConfusion hq
      · have h0 := i2 t' hp
        rw [hw] at h0
        simp only [Option.some.injEq] at h0
        exact absurd h0.symm ht
    · intro t' h'
      rcases update_pc_cases h' with ⟨rfl, hq⟩ | ⟨ht, hp⟩
      · exact SFPc.noConfusion hq
      · have h0 := i2 t' hp
        rw [hw] at h0
        simp only [Option.some.injEq] at h0
        exact absurd h0.symm ht
    · intro hcon
      have hcon2 : some srv = (none : Option F) := hcon
      exact Option.noConfusion hcon2
    · intro v' hv'
      have hv2 : some srv = some v' := hv'
      simp only [Option.some.injEq] at hv2
      constructor
      · show s.loads + 1 = 1
        rw [hl0]
      · exact hv2.symm
    · intro t' v' h'
      rcases update_pc_cases h' with ⟨rfl, hq⟩ | ⟨ht, hp⟩
      · simp only [SFPc.finished.injEq] at hq
        exact ⟨hq.symm, rfl⟩
      · have h6 := i6 t' v' hp
        rw [hcnone] at h6
        exact absurd h6.2 (by simp)

theorem sfReach_inv {n : Nat} {F : Type} {srv : F} {s : SFState n F}
    (h : SFReach srv s) : SFInv srv s := by
  induction h with
  | refl => exact sfInit_inv srv
  | tail hsteps hstep ih => exact sfStep_inv hstep ih

end Gvfs

/-- C9: in the double-checked locking discipline of `_get_fileset_context`
(read-locked lookup, then writer-locked re-check and load), over every
interleaving of `n` threads resolving the same uncached identifier: at most
one catalog load is ever in flight, the load counter never exceeds one, and in
any state where all threads have finished, exactly one catalog load was
performed and every thread observed the entry inserted by the winning
loader. -/
theorem c9_single_flight {n : Nat} {F : Type} (srv : F) (s : Gvfs.SFState n F)
    (hreach : Gvfs.SFReach srv s) :
    (∀ t t', s.pcs t = .loadPhase → s.pcs t' = .loadPhase → t = t')
    ∧ s.loads ≤ 1
    ∧ (0 < n → (∀ t, ∃ v, s.pcs t = Gvfs.SFPc.finished v) →
        s.loads = 1 ∧ ∀ t v, s.pcs t = Gvfs.SFPc.finished v → v = srv) := by
  obtain ⟨i1, i2, i3, i4, i5, i6⟩ := Gvfs.sfReach_inv hreach
  refine ⟨?_, ?_, ?_⟩
  · intro t t' h h'
    have h1 := i2 t h
    have h2 := i2 t' h'
    rw [h1] at h2
    simpa using h2
  · cases hc : s.cache with
    | none => rw [i4 hc]; exact Nat.zero_le 1
    | some v => rw [(i5 v hc).1]
  · intro hn hall
    obtain ⟨v0, hv0⟩ := hall ⟨0, hn⟩
    have h6 := i6 _ _ hv0
    exact ⟨(i5 srv h6.2).1, fun t v hv => (i6 t v hv).1⟩

/-- Witness for C9: a complete one-caller execution — read miss, writer-lock
acquisition, re-check miss, load — reaches an all-finished state, and the
theorem yields that exactly one load was performed. -/
theorem c9_single_flight_witness :
    ∃ s : Gvfs.SFState 1 Nat, Gvfs.SFReach 0 s
      ∧ (∀ t, ∃ v, s.pcs t = Gvfs.SFPc.finished v) ∧ s.loads = 1 := by
  have hreach := Relation.ReflTransGen.tail (Relation.ReflTransGen.tail
    (Relation.ReflTransGen.tail (Relation.ReflTransGen.tail
      (@Relation.ReflTransGen.refl (Gvfs.SFState 1 Nat) (Gvfs.SFStep 0)
        (Gvfs.sfInit 1 Nat))
      (@Gvfs.SFStep.readMiss 1 Nat 0 (Gvfs.sfInit 1 Nat) ⟨0, Nat.zero_lt_one⟩ rfl rfl rfl))
    (@Gvfs.SFStep.acquire 1 Nat 0 _ ⟨0, Nat.zero_lt_one⟩ rfl rfl))
    (@Gvfs.SFStep.recheckMiss 1 Nat 0 _ ⟨0, Nat.zero_lt_one⟩ rfl rfl rfl))
    (@Gvfs.SFStep.load 1 Nat 0 _ ⟨0, Nat.zero_lt_one⟩ rfl rfl)
  refine ⟨_, hreach, ?_, ?_⟩
  · intro t
    have ht : t = ⟨0, Nat.zero_lt_one⟩ := Subsingleton.elim t _
    subst ht
    exact ⟨0, rfl⟩
  · refine ((c9_single_flight 0 _ hreach).2.2 Nat.zero_lt_one ?_).1
    intro t
    have ht : t = ⟨0, Nat.zero_lt_one⟩ := Subsingleton.elim t _
    subst ht
    exact ⟨0, rfl⟩

/-- Witness for the amended C1 at concrete values: either input style of
`.../cat/sch/fs/x` round-trips to the scheme-prefixed virtual path. -/
theorem c1_round_trip_amended_witness :
    Gvfs.round_trip ⟨"m".data, "cat".data, "sch".data, "fs".data⟩
        ⟨Gvfs.hdfs_prefix_str ++ ("h".data ++ '/' :: "d".data)⟩ .File 3 7
        (Gvfs.get_virtual_location ⟨"m".data, "cat".data, "sch".data, "fs".data⟩ false
          ++ '/' :: "x".data)
      = .ok ⟨Gvfs.gvfs_prefix_str
          ++ (Gvfs.get_virtual_location ⟨"m".data, "cat".data, "sch".data, "fs".data⟩ false
            ++ '/' :: "x".data), 3, "file", 7⟩ :=
  c1_round_trip_amended "m".data "cat".data "sch".data "fs".data "h".data "d".data
    "x".data false 3 7 (by decide) (by decide) (by decide) (by decide) (by decide)
    (by decide)
